import Mathlib

/-!
Verification development for the `ans104-indexer` repository.

The repository decodes ANS-104 bundle payloads (header, per-item fields,
Avro-style tag blocks) and stores the decoded items through an atomic
write-then-commit storage session.  This file gives a shallow embedding of
the relevant Rust code and proves properties of it.

Modelling conventions:
* A Rust byte buffer (`&[u8]`, `BytesMut`) is a `List Nat` whose elements
  are the byte values.
* A Rust `String` is represented by its UTF-8 byte content, a `List Nat`
  (Rust strings are in bijection with valid UTF-8 byte sequences, so field
  equality of strings is equality of these lists).
* Fallible reads on `BytesMut` (`get_u8`, `split_to`, `advance`, ...) panic
  in Rust when the buffer is too short; they are embedded as
  `Option`-returning operations, `none` meaning the panic.
* `RunResult` distinguishes a successful decode, a returned decode error,
  and a panic (out-of-bounds slice), the three observable outcomes of the
  decoding functions.
-/

namespace Ans104

instance instDecEqExcept {ε α : Type} [DecidableEq ε] [DecidableEq α] : DecidableEq (Except ε α)
  | .ok a, .ok b => if h : a = b then .isTrue (by rw [h]) else .isFalse (by simp [h])
  | .ok _, .error _ => .isFalse (by simp)
  | .error _, .ok _ => .isFalse (by simp)
  | .error a, .error b => if h : a = b then .isTrue (by rw [h]) else .isFalse (by simp [h])

/-- Decode errors of the codec, from `src/errors.rs` (`ParseError`). -/
inductive ParseError where
  | ExpectedLong : ParseError
  | InvalidLengthString : ParseError
  | InvalidString : ParseError
  | InvalidSignatureType : Nat → ParseError
  | InvalidPresenceByte : Nat → ParseError
  | InvalidTagsLength : Nat → Nat → ParseError
deriving DecidableEq

/-- A decoded tag, from `src/transaction/tags.rs` (`Tag { name, value }`);
`name` and `value` hold the UTF-8 bytes of the Rust strings. -/
structure Tag where
  name : List Nat
  value : List Nat
deriving DecidableEq

/-- Zigzag decoding `(n >> 1) ^ -(n & 1)` of `read_long`, written
arithmetically: xor with `0` is the identity and xor with `-1` is
two's-complement bitwise negation, i.e. `x ^ -1 = -x - 1`. -/
def zigzag (n : Nat) : Int :=
  if n % 2 = 0 then ((n / 2 : Nat) : Int) else -((n / 2 : Nat) : Int) - 1

/-- The loop of `TagsReader::read_long` (`src/transaction/tags.rs`),
reading the remaining bytes `l` (the buffer from the cursor on) with
accumulator `number` and shift `shift`; returns the decoded long (or
`none` when the buffer runs out first) together with the number of bytes
consumed. -/
def readLongGo : List Nat → Nat → Nat → Option Int × Nat
  | [], _, _ => (none, 0)
  | b :: rest, number, shift =>
    let number2 := number ||| ((b &&& 0x7f) <<< shift)
    if b &&& 0x80 = 0 || shift + 7 ≥ 28 then
      (some (zigzag number2), 1)
    else
      let r := readLongGo rest number2 (shift + 7)
      (r.1, r.2 + 1)

/-- `TagsReader::read_long`: read a zigzag varint at cursor `pos`,
returning the value (`none` when the buffer is exhausted) and the new
cursor position. -/
def read_long (buffer : List Nat) (pos : Nat) : Option Int × Nat :=
  let r := readLongGo (buffer.drop pos) 0 0
  (r.1, pos + r.2)

/-- The scan loop of `TagsReader::skip_long`: number of leading bytes of
`l` that have the continuation bit `0x80` set. -/
def skipLongGo : List Nat → Nat
  | [] => 0
  | b :: rest => if b &&& 0x80 ≠ 0 then skipLongGo rest + 1 else 0

/-- `TagsReader::skip_long`: skip the continuation bytes of a long, then
move past its final byte when still inside the buffer; returns the new
cursor position. -/
def skip_long (buffer : List Nat) (pos : Nat) : Nat :=
  let p := pos + skipLongGo (buffer.drop pos)
  if p < buffer.length then p + 1 else p

/-- UTF-8 validity of a byte sequence, following the table used by Rust's
`String::from_utf8` (RFC 3629: no overlong forms, no surrogates, at most
U+10FFFF). -/
def utf8Valid : List Nat → Bool
  | [] => true
  | b :: rest =>
    if b < 0x80 then utf8Valid rest
    else if 0xC2 ≤ b ∧ b ≤ 0xDF then
      match rest with
      | c1 :: rest1 => if 0x80 ≤ c1 ∧ c1 ≤ 0xBF then utf8Valid rest1 else false
      | [] => false
    else if 0xE0 ≤ b ∧ b ≤ 0xEF then
      match rest with
      | c1 :: c2 :: rest2 =>
        let lo1 := if b = 0xE0 then 0xA0 else 0x80
        let hi1 := if b = 0xED then 0x9F else 0xBF
        if (lo1 ≤ c1 ∧ c1 ≤ hi1) ∧ (0x80 ≤ c2 ∧ c2 ≤ 0xBF) then utf8Valid rest2
        else false
      | _ => false
    else if 0xF0 ≤ b ∧ b ≤ 0xF4 then
      match rest with
      | c1 :: c2 :: c3 :: rest3 =>
        let lo1 := if b = 0xF0 then 0x90 else 0x80
        let hi1 := if b = 0xF4 then 0x8F else 0xBF
        if (lo1 ≤ c1 ∧ c1 ≤ hi1) ∧ (0x80 ≤ c2 ∧ c2 ≤ 0xBF) ∧ (0x80 ≤ c3 ∧ c3 ≤ 0xBF) then
          utf8Valid rest3
        else false
      | _ => false
    else false

/-- `TagsReader::read_string` (`src/transaction/tags.rs`): read a long as
the byte length, check sign and bounds, take the bytes and validate UTF-8.
Returns the result together with the cursor position after the call (the
Rust reader keeps its mutated `pos` even when it returns an error). -/
def read_string (buffer : List Nat) (pos : Nat) : Except ParseError (List Nat) × Nat :=
  match read_long buffer pos with
  | (none, p) => (.error .ExpectedLong, p)
  | (some length, p) =>
    if length < 0 ∨ p + length.toNat > buffer.length then
      (.error .InvalidLengthString, p)
    else
      let content := (buffer.drop p).take length.toNat
      if utf8Valid content then (.ok content, p + length.toNat)
      else (.error .InvalidString, p + length.toNat)

/-- The record loop of `TagsReader::read_tags`: read `n` records of two
strings each (name then value), accumulating onto `acc`; returns the
extended accumulator and the cursor position. -/
def readRecords (buffer : List Nat) : Nat → Nat → List Tag → Except ParseError (List Tag × Nat)
  | pos, 0, acc => .ok (acc, pos)
  | pos, Nat.succ n, acc =>
    match read_string buffer pos with
    | (.error e, _) => .error e
    | (.ok name, p1) =>
      match read_string buffer p1 with
      | (.error e, _) => .error e
      | (.ok value, p2) => readRecords buffer p2 n (acc ++ [⟨name, value⟩])

/-- The block loop of `TagsReader::read_tags` (`src/transaction/tags.rs`):
read a long; `none` (buffer exhausted) ends the loop successfully; a
negative count is made positive and the following size long is skipped;
then that many records are read, and the loop repeats.

The loop is embedded with structural fuel so that it evaluates by
`decide`: whenever a long is read the cursor strictly advances, so any
`fuel > buffer.length - pos` reaches the exhaustion exit before running
out; the fuel-0 branch is unreachable for such fuel, and
`readTagsGo_fuel_succ` proves the result is then independent of the fuel. -/
def readTagsGo (buffer : List Nat) : Nat → Nat → List Tag → Except ParseError (List Tag)
  | 0, _, acc => .ok acc
  | Nat.succ fuel, pos, acc =>
    match read_long buffer pos with
    | (none, _) => .ok acc
    | (some length, p) =>
      let p2 := if length < 0 then skip_long buffer p else p
      match readRecords buffer p2 length.natAbs acc with
      | .error e => .error e
      | .ok (acc2, p3) => readTagsGo buffer fuel p3 acc2

namespace TagsReader

/-- `TagsReader::deserialize`: run `read_tags` from position 0 (fuel
`buffer.length + 1` always suffices, see `readTagsGo_fuel_succ`). -/
def deserialize (buffer : List Nat) : Except ParseError (List Tag) :=
  readTagsGo buffer (buffer.length + 1) 0 []

end TagsReader

/-! Byte-cursor operations of the `bytes` crate (`Buf` / `BytesMut`) used
by the bundle decoder; each panics in Rust when the buffer is too short,
modelled as `none`. -/

/-- `get_u8`: pop one byte. -/
def getU8 : List Nat → Option (Nat × List Nat)
  | [] => none
  | b :: rest => some (b, rest)

/-- `get_u16_le`: pop a little-endian 16-bit integer. -/
def getU16le : List Nat → Option (Nat × List Nat)
  | b0 :: b1 :: rest => some (b0 + b1 * 256, rest)
  | _ => none

/-- `get_u32_le`: pop a little-endian 32-bit integer. -/
def getU32le : List Nat → Option (Nat × List Nat)
  | b0 :: b1 :: b2 :: b3 :: rest =>
    some (b0 + b1 * 256 + b2 * 65536 + b3 * 16777216, rest)
  | _ => none

/-- `get_u64_le`: pop a little-endian 64-bit integer. -/
def getU64le : List Nat → Option (Nat × List Nat)
  | b0 :: b1 :: b2 :: b3 :: b4 :: b5 :: b6 :: b7 :: rest =>
    some (b0 + b1 * 256 + b2 * 65536 + b3 * 16777216 + b4 * 4294967296 +
      b5 * 1099511627776 + b6 * 281474976710656 + b7 * 72057594037927936, rest)
  | _ => none

/-- `split_to(n)`: split off the first `n` bytes. -/
def splitTo (n : Nat) (l : List Nat) : Option (List Nat × List Nat) :=
  if n ≤ l.length then some (l.take n, l.drop n) else none

/-- `advance(n)`: drop the first `n` bytes. -/
def advanceB (n : Nat) (l : List Nat) : Option (List Nat) :=
  if n ≤ l.length then some (l.drop n) else none

/-! Base64 encoding as used by the `base64` crate: `encode_config(_,
URL_SAFE_NO_PAD)` and the standard padded `encode`. Outputs are the ASCII
codes of the encoded characters. -/

/-- Character of the URL-safe alphabet (`A-Z a-z 0-9 - _`). -/
def b64UrlChar (i : Nat) : Nat :=
  if i < 26 then 65 + i
  else if i < 52 then 97 + (i - 26)
  else if i < 62 then 48 + (i - 52)
  else if i = 62 then 45
  else 95

/-- Character of the standard alphabet (`A-Z a-z 0-9 + /`). -/
def b64StdChar (i : Nat) : Nat :=
  if i < 26 then 65 + i
  else if i < 52 then 97 + (i - 26)
  else if i < 62 then 48 + (i - 52)
  else if i = 62 then 43
  else 47

/-- Base64 encoding over 3-byte groups; `pad` adds `'='` (61) for final
groups of 1 or 2 bytes. -/
def base64Encode (charOf : Nat → Nat) (pad : Bool) : List Nat → List Nat
  | b0 :: b1 :: b2 :: rest =>
    charOf (b0 / 4) :: charOf ((b0 % 4) * 16 + b1 / 16) ::
      charOf ((b1 % 16) * 4 + b2 / 64) :: charOf (b2 % 64) ::
      base64Encode charOf pad rest
  | [b0, b1] =>
    [charOf (b0 / 4), charOf ((b0 % 4) * 16 + b1 / 16), charOf ((b1 % 16) * 4)] ++
      (if pad then [61] else [])
  | [b0] =>
    [charOf (b0 / 4), charOf ((b0 % 4) * 16)] ++ (if pad then [61, 61] else [])
  | [] => []

/-- `encode_config(bytes, URL_SAFE_NO_PAD)`. -/
def encodeUrlNoPad (l : List Nat) : List Nat := base64Encode b64UrlChar false l

/-- `encode(bytes)`: standard alphabet, padded. -/
def encodeStdPad (l : List Nat) : List Nat := base64Encode b64StdChar true l

/-- `SignatureType` of `src/transaction/bundle.rs` (also declared
identically in `src/indexer.rs`). -/
inductive SignatureType where
  | Arweave | ED25519 | Ethereum | Solana
  | Injectedaptos | Multiaptos | Typedethereum | Starknet
deriving DecidableEq

/-- The `SIG_CONFIG` table `(signature length, owner length)`, identical
in `src/transaction/bundle.rs` and `src/indexer.rs`. -/
def SIG_CONFIG : SignatureType → Nat × Nat
  | .Arweave => (512, 512)
  | .ED25519 => (64, 32)
  | .Ethereum => (65, 65)
  | .Solana => (64, 32)
  | .Injectedaptos => (64, 32)
  | .Multiaptos => (2052, 1025)
  | .Typedethereum => (65, 42)
  | .Starknet => (128, 33)

/-- `TryFrom<u16> for SignatureType` in `src/transaction/bundle.rs`. -/
def SignatureType.tryFrom (value : Nat) : Except ParseError SignatureType :=
  if value = 1 then .ok .Arweave
  else if value = 2 then .ok .ED25519
  else if value = 3 then .ok .Ethereum
  else if value = 4 then .ok .Solana
  else if value = 5 then .ok .Injectedaptos
  else if value = 6 then .ok .Multiaptos
  else if value = 7 then .ok .Typedethereum
  else if value = 8 then .ok .Starknet
  else .error (.InvalidSignatureType value)

/-- Outcome of running a decoding function: success, a returned decode
error, or a panic from an unsatisfiable slice operation. -/
inductive RunResult (α : Type) where
  | ok : α → RunResult α
  | err : ParseError → RunResult α
  | panic : RunResult α
deriving DecidableEq

/-- Map the success value of a `RunResult`. -/
def RunResult.map {α β : Type} (f : α → β) : RunResult α → RunResult β
  | .ok a => .ok (f a)
  | .err e => .err e
  | .panic => .panic

/-- `BundleItem` of `src/transaction/bundle.rs`: string fields hold the
UTF-8 bytes of the base64 strings, `target`/`anchor` are optional. -/
structure BundleItem where
  id : List Nat
  signature : List Nat
  owner : List Nat
  target : Option (List Nat)
  anchor : Option (List Nat)
  tags : List Tag
  data : List Nat
deriving DecidableEq

namespace BundleItem

/-- `BundleItem::read_optional_string`: read the presence flag; on a flag
other than 0/1 the code reads a *second* byte with `data.get_u8()` and
puts that byte in the error. -/
def read_optional_string (data : List Nat) : RunResult (Option (List Nat) × List Nat) :=
  match getU8 data with
  | none => .panic
  | some (0, rest) => .ok (none, rest)
  | some (1, rest) =>
    match splitTo 32 rest with
    | none => .panic
    | some (bytes, rest2) => .ok (some (encodeUrlNoPad bytes), rest2)
  | some (_, rest) =>
    match getU8 rest with
    | none => .panic
    | some (b, _) => .err (.InvalidPresenceByte b)

/-- The tag phase of `BundleItem::parse_item`: read the declared count and
byte length; when both are positive, split off that many bytes, decode
them, and check the count; otherwise no tags and no bytes consumed. -/
def parseItemTags (tags_length num_bytes_for_tags : Nat) (data : List Nat) :
    RunResult (List Tag × List Nat) :=
  if tags_length > 0 ∧ num_bytes_for_tags > 0 then
    match splitTo num_bytes_for_tags data with
    | none => .panic
    | some (tags_bytes, rest) =>
      match TagsReader.deserialize tags_bytes with
      | .error e => .err e
      | .ok tags =>
        if tags.length ≠ tags_length then .err (.InvalidTagsLength tags_length tags.length)
        else .ok (tags, rest)
  else .ok ([], data)

/-- `BundleItem::parse_item` (`src/transaction/bundle.rs`): signature type,
signature, owner, optional target and anchor, the tag block, and the
remainder as payload. -/
def parse_item (data : List Nat) (id : List Nat) : RunResult BundleItem :=
  match getU16le data with
  | none => .panic
  | some (raw, d1) =>
    match SignatureType.tryFrom raw with
    | .error e => .err e
    | .ok signature_type =>
      let sizes := SIG_CONFIG signature_type
      match splitTo sizes.1 d1 with
      | none => .panic
      | some (sig_bytes, d2) =>
        match splitTo sizes.2 d2 with
        | none => .panic
        | some (owner_bytes, d3) =>
          match read_optional_string d3 with
          | .panic => .panic
          | .err e => .err e
          | .ok (target, d4) =>
            match read_optional_string d4 with
            | .panic => .panic
            | .err e => .err e
            | .ok (anchor, d5) =>
              match getU64le d5 with
              | none => .panic
              | some (tags_length, d6) =>
                match getU64le d6 with
                | none => .panic
                | some (num_bytes_for_tags, d7) =>
                  match parseItemTags tags_length num_bytes_for_tags d7 with
                  | .panic => .panic
                  | .err e => .err e
                  | .ok (tags, d8) =>
                    .ok ⟨id, encodeUrlNoPad sig_bytes, encodeUrlNoPad owner_bytes,
                      target, anchor, tags, encodeUrlNoPad d8⟩

end BundleItem

/-- `BundleStream` (`src/transaction/bundle.rs`): the remaining byte
buffer, the decoded header entries `(byte length, base64url id)`, and the
index of the next entry. -/
structure BundleStream where
  bytes : List Nat
  entries : List (Nat × List Nat)
  current_entry : Nat
deriving DecidableEq

/-- The header entry loop of `BundleItem::stream`: `num_entries`
repetitions of 4-byte little-endian size, 28 skipped bytes, and a 32-byte
id encoded with `URL_SAFE_NO_PAD`. -/
def readEntries : Nat → List Nat → Option (List (Nat × List Nat) × List Nat)
  | 0, data => some ([], data)
  | Nat.succ n, data =>
    match getU32le data with
    | none => none
    | some (size_entry, d1) =>
      match advanceB 28 d1 with
      | none => none
      | some d2 =>
        match splitTo 32 d2 with
        | none => none
        | some (idb, d3) =>
          match readEntries n d3 with
          | none => none
          | some (rest, d4) => some ((size_entry, encodeUrlNoPad idb) :: rest, d4)

/-- `BundleItem::stream`: 4-byte little-endian entry count, 28 skipped
bytes, then the entry table; the remaining buffer and the entries form the
stream state.  The Rust function returns `Result` but only ever `Ok`; its
failure mode is the panic of an unsatisfiable read, the `none` case. -/
def BundleItem.stream (data : List Nat) : Option BundleStream :=
  match getU32le data with
  | none => none
  | some (num_entries, d1) =>
    match advanceB 28 d1 with
    | none => none
    | some d2 =>
      match readEntries num_entries d2 with
      | none => none
      | some (entries, d3) => some ⟨d3, entries, 0⟩

/-- Outcome of one `poll_next` call: a panic, end of the stream, or a
yielded per-item result together with the successor stream state. -/
inductive PollRes where
  | panic : PollRes
  | done : PollRes
  | yield : Except ParseError BundleItem → BundleStream → PollRes
deriving DecidableEq

/-- `Stream::poll_next` for `BundleStream`: while entries remain, split
off the entry's declared byte length, decode the item from that slice
(its result is yielded whether `Ok` or `Err`), and advance the entry
index; past the last entry the stream keeps returning `Ready(None)`. -/
def pollNext (s : BundleStream) : PollRes :=
  if h : s.current_entry < s.entries.length then
    let e := s.entries.get ⟨s.current_entry, h⟩
    match splitTo e.1 s.bytes with
    | none => .panic
    | some (item_data, rest) =>
      match BundleItem.parse_item item_data e.2 with
      | .panic => .panic
      | .ok item => .yield (.ok item) ⟨rest, s.entries, s.current_entry + 1⟩
      | .err er => .yield (.error er) ⟨rest, s.entries, s.current_entry + 1⟩
  else .done

/-- Fully draining the stream: poll until `done`, collecting the yielded
results in order.  Structural fuel: every yield increments
`current_entry` within the fixed entry list, so any
`fuel > entries.length - current_entry` reaches `done`; see
`drainGo_fuel`. -/
def drainGo : Nat → BundleStream → RunResult (List (Except ParseError BundleItem))
  | 0, _ => .ok []
  | Nat.succ fuel, s =>
    match pollNext s with
    | .panic => .panic
    | .done => .ok []
    | .yield r s2 => (drainGo fuel s2).map (r :: ·)

/-- Draining the lazy stream to the end. -/
def drain (s : BundleStream) : RunResult (List (Except ParseError BundleItem)) :=
  drainGo (s.entries.length - s.current_entry + 1) s

/-- The drain of a `BundleStream`, rephrased as a recursion over the
remaining entry list: split each declared byte length off the buffer in
turn and decode the item from that slice (see `drain_eq_drainEntries`). -/
def drainEntries : List Nat → List (Nat × List Nat) → RunResult (List (Except ParseError BundleItem))
  | _, [] => .ok []
  | data, (size, id) :: rest =>
    match splitTo size data with
    | none => .panic
    | some (item_data, data2) =>
      match BundleItem.parse_item item_data id with
      | .panic => .panic
      | .ok item => (drainEntries data2 rest).map (.ok item :: ·)
      | .err e => (drainEntries data2 rest).map (.error e :: ·)

/-! The batch decoder of `src/indexer.rs` (`parse_bundle`,
`parse_bundle_item`, and the `TagsReader` of `src/tags.rs`).  Its errors
are `anyhow` values, one per `anyhow!`/error site. -/

/-- The `anyhow` error values produced in `src/indexer.rs` and
`src/tags.rs`, one constructor per error site. -/
inductive AErr where
  | InvalidValueForSignatureType : AErr
  | ErrorPresenceTargetByte : Nat → AErr
  | ErrorPresenceAnchorByte : Nat → AErr
  | DifferentNumberOfTags : Nat → Nat → AErr
  | FailedToReadLength : AErr
  | InvalidStringLength : AErr
  | InvalidUtf8Sequence : AErr
deriving DecidableEq

/-- Outcome of a batch decoding function (`anyhow::Result` plus the panic
of an unsatisfiable slice). -/
inductive BRunResult (α : Type) where
  | ok : α → BRunResult α
  | err : AErr → BRunResult α
  | panic : BRunResult α
deriving DecidableEq

/-- `TagsReader::read_string` of `src/tags.rs`: same reads and checks as
the `src/transaction/tags.rs` reader, with `anyhow` error values. -/
def read_stringB (buffer : List Nat) (pos : Nat) : Except AErr (List Nat) × Nat :=
  match read_long buffer pos with
  | (none, p) => (.error .FailedToReadLength, p)
  | (some length, p) =>
    if length < 0 ∨ p + length.toNat > buffer.length then
      (.error .InvalidStringLength, p)
    else
      let content := (buffer.drop p).take length.toNat
      if utf8Valid content then (.ok content, p + length.toNat)
      else (.error .InvalidUtf8Sequence, p + length.toNat)

/-- The record loop of `TagsReader::read_tags` in `src/tags.rs`. -/
def readRecordsB (buffer : List Nat) : Nat → Nat → List Tag → Except AErr (List Tag × Nat)
  | pos, 0, acc => .ok (acc, pos)
  | pos, Nat.succ n, acc =>
    match read_stringB buffer pos with
    | (.error e, _) => .error e
    | (.ok name, p1) =>
      match read_stringB buffer p1 with
      | (.error e, _) => .error e
      | (.ok value, p2) => readRecordsB buffer p2 n (acc ++ [⟨name, value⟩])

/-- The block loop of `TagsReader::read_tags` in `src/tags.rs` (same
structure as `readTagsGo`). -/
def readTagsGoB (buffer : List Nat) : Nat → Nat → List Tag → Except AErr (List Tag)
  | 0, _, acc => .ok acc
  | Nat.succ fuel, pos, acc =>
    match read_long buffer pos with
    | (none, _) => .ok acc
    | (some length, p) =>
      let p2 := if length < 0 then skip_long buffer p else p
      match readRecordsB buffer p2 length.natAbs acc with
      | .error e => .error e
      | .ok (acc2, p3) => readTagsGoB buffer fuel p3 acc2

/-- `TagsReader::deserialize` of `src/tags.rs` (used by
`parse_tags` in `src/indexer.rs`). -/
def deserializeB (buffer : List Nat) : Except AErr (List Tag) :=
  readTagsGoB buffer (buffer.length + 1) 0 []

/-- `BundleItem` of `src/indexer.rs`: `target` and `anchor` are plain
strings, the empty string standing for an absent field. -/
structure BatchItem where
  id : List Nat
  signature : List Nat
  owner : List Nat
  target : List Nat
  anchor : List Nat
  tags : List Tag
  data : List Nat
deriving DecidableEq

/-- The `TryFrom<u16>` of the `SignatureType` copy in `src/indexer.rs`
(the `anyhow` error carries no value). -/
def tryFromB (value : Nat) : Except AErr SignatureType :=
  if value = 1 then .ok .Arweave
  else if value = 2 then .ok .ED25519
  else if value = 3 then .ok .Ethereum
  else if value = 4 then .ok .Solana
  else if value = 5 then .ok .Injectedaptos
  else if value = 6 then .ok .Multiaptos
  else if value = 7 then .ok .Typedethereum
  else if value = 8 then .ok .Starknet
  else .error .InvalidValueForSignatureType

/-- The target/anchor step of `parse_bundle_item` (`src/indexer.rs`): the
presence byte selects the empty string or 32 encoded bytes; any other
value is an error carrying that byte (`mkErr`). -/
def readPresenceB (mkErr : Nat → AErr) (data : List Nat) : BRunResult (List Nat × List Nat) :=
  match getU8 data with
  | none => .panic
  | some (0, rest) => .ok ([], rest)
  | some (1, rest) =>
    match splitTo 32 rest with
    | none => .panic
    | some (bytes, rest2) => .ok (encodeUrlNoPad bytes, rest2)
  | some (b, rest) => .err (mkErr b)

/-- `parse_bundle_item` (`src/indexer.rs`). -/
def parse_bundle_item (data : List Nat) (id : List Nat) : BRunResult BatchItem :=
  match getU16le data with
  | none => .panic
  | some (raw, d1) =>
    match tryFromB raw with
    | .error e => .err e
    | .ok signature_type =>
      let sizes := SIG_CONFIG signature_type
      match splitTo sizes.1 d1 with
      | none => .panic
      | some (sig_bytes, d2) =>
        match splitTo sizes.2 d2 with
        | none => .panic
        | some (owner_bytes, d3) =>
          match readPresenceB .ErrorPresenceTargetByte d3 with
          | .panic => .panic
          | .err e => .err e
          | .ok (target, d4) =>
            match readPresenceB .ErrorPresenceAnchorByte d4 with
            | .panic => .panic
            | .err e => .err e
            | .ok (anchor, d5) =>
              match getU64le d5 with
              | none => .panic
              | some (tags_length, d6) =>
                match getU64le d6 with
                | none => .panic
                | some (num_bytes_for_tags, d7) =>
                  if tags_length > 0 ∧ num_bytes_for_tags > 0 then
                    match splitTo num_bytes_for_tags d7 with
                    | none => .panic
                    | some (tags_bytes, d8) =>
                      match deserializeB tags_bytes with
                      | .error e => .err e
                      | .ok tags =>
                        if tags.length ≠ tags_length then
                          .err (.DifferentNumberOfTags tags_length tags.length)
                        else
                          .ok ⟨id, encodeUrlNoPad sig_bytes, encodeUrlNoPad owner_bytes,
                            target, anchor, tags, encodeUrlNoPad d8⟩
                  else
                    .ok ⟨id, encodeUrlNoPad sig_bytes, encodeUrlNoPad owner_bytes,
                      target, anchor, [], encodeUrlNoPad d7⟩

/-- The header entry loop of `parse_bundle` (`src/indexer.rs`): identical
layout to `readEntries`, but the 32 id bytes are encoded with the padded
standard-alphabet `encode`. -/
def readEntriesB : Nat → List Nat → Option (List (Nat × List Nat) × List Nat)
  | 0, data => some ([], data)
  | Nat.succ n, data =>
    match getU32le data with
    | none => none
    | some (size_entry, d1) =>
      match advanceB 28 d1 with
      | none => none
      | some d2 =>
        match splitTo 32 d2 with
        | none => none
        | some (idb, d3) =>
          match readEntriesB n d3 with
          | none => none
          | some (rest, d4) => some ((size_entry, encodeStdPad idb) :: rest, d4)

/-- Map the success value of a `BRunResult`. -/
def BRunResult.map {α β : Type} (f : α → β) : BRunResult α → BRunResult β
  | .ok a => .ok (f a)
  | .err e => .err e
  | .panic => .panic

/-- The item loop of `parse_bundle`: carve each entry's slice off the
buffer in order and decode it, aborting the whole batch on the first
error (`?`). -/
def batchItems : List Nat → List (Nat × List Nat) → BRunResult (List BatchItem)
  | _, [] => .ok []
  | data, (size, id) :: rest =>
    match splitTo size data with
    | none => .panic
    | some (item_data, data2) =>
      match parse_bundle_item item_data id with
      | .panic => .panic
      | .err e => .err e
      | .ok item => (batchItems data2 rest).map (item :: ·)

/-- `parse_bundle` (`src/indexer.rs`): 4-byte little-endian count, 28
skipped bytes, the entry table, then each entry decoded eagerly into one
list. -/
def parse_bundle (data : List Nat) : BRunResult (List BatchItem) :=
  match getU32le data with
  | none => .panic
  | some (num_entries, d1) =>
    match advanceB 28 d1 with
    | none => .panic
    | some d2 =>
      match readEntriesB num_entries d2 with
      | none => .panic
      | some (entries, d3) => batchItems d3 entries

/-! The indexing orchestrator (`src/indexer/indexer_default.rs`) and the
storage session contract (`src/storage/fs.rs`). -/

/-- `StorageError` of `src/errors.rs` (payloads omitted). -/
inductive StorageError where
  | CannotSerializeItem : StorageError
  | IOError : StorageError
deriving DecidableEq

/-- `IndexerError` of `src/errors.rs`. -/
inductive IndexerError where
  | Downloader : IndexerError
  | Storage : StorageError → IndexerError
  | Parser : ParseError → IndexerError
deriving DecidableEq

/-- The calls `Indexer::index` makes on its storage session. -/
inductive StorageOp where
  | store : BundleItem → StorageOp
  | rollback : StorageOp
  | commit : StorageOp
deriving DecidableEq

namespace Indexer

/-- The item loop of `Indexer::index` (`src/indexer/indexer_default.rs`),
as a function of the sequence of per-item decode results pulled from the
downloader's stream and of oracles for the filesystem behaviour:
`storeRes k` is the outcome of the k-th `store` call (`none` = success)
and `commitRes` the outcome of `commit`.  Returns the ordered list of
storage-session calls made and the function's result: each `Ok` item is
stored; a failing store rolls back and returns its error; a decode error
rolls back and returns it; when the stream ends, the session commits. -/
def index (storeRes : Nat → Option StorageError) (commitRes : Option StorageError) :
    Nat → List (Except ParseError BundleItem) → List StorageOp × Except IndexerError Unit
  | _, [] =>
    ([.commit], match commitRes with
      | none => .ok ()
      | some e => .error (.Storage e))
  | k, .ok value :: rest =>
    match storeRes k with
    | none =>
      let r := index storeRes commitRes (k + 1) rest
      (.store value :: r.1, r.2)
    | some e => ([.store value, .rollback], .error (.Storage e))
  | _, .error e :: _ => ([.rollback], .error (.Parser e))

end Indexer

/-- State of the two filesystem paths touched by one `LocalStorageFS`
session: the staging file (in the temp directory, keyed by transaction
id) and the destination file; `none` means the file does not exist. -/
structure FsState where
  staging : Option (List BundleItem)
  dest : Option (List BundleItem)
deriving DecidableEq

/-- Effect of one storage call on the two files (`src/storage/fs.rs`):
`store` appends the item's record to the staging file, `rollback` removes
the staging file, `commit` renames the staging file onto the
destination. -/
def applyOp : FsState → StorageOp → FsState
  | st, .store v => { st with staging := some ((st.staging.getD []) ++ [v]) }
  | st, .rollback => { st with staging := none }
  | st, .commit => { staging := none, dest := st.staging }

/-- Effect of a sequence of storage calls. -/
def applyOps (st : FsState) (ops : List StorageOp) : FsState := ops.foldl applyOp st

/-! The storage record format.  `LocalStorageFS::store` serializes a
`BundleItem` with `serde_json`; the serializer and parser are external
crate code, not part of `src/`. -/

/-- JSON documents (strings carry their UTF-8 bytes). -/
inductive Json where
  | null : Json
  | jstr : List Nat → Json
  | jarr : List Json → Json
  | jobj : List (List Nat × Json) → Json

/-- The bytes of `"id"`. -/
def kId : List Nat := [105, 100]
/-- The bytes of `"signature"`. -/
def kSignature : List Nat := [115, 105, 103, 110, 97, 116, 117, 114, 101]
/-- The bytes of `"owner"`. -/
def kOwner : List Nat := [111, 119, 110, 101, 114]
/-- The bytes of `"target"`. -/
def kTarget : List Nat := [116, 97, 114, 103, 101, 116]
/-- The bytes of `"anchor"`. -/
def kAnchor : List Nat := [97, 110, 99, 104, 111, 114]
/-- The bytes of `"tags"`. -/
def kTags : List Nat := [116, 97, 103, 115]
/-- The bytes of `"name"`. -/
def kName : List Nat := [110, 97, 109, 101]
/-- The bytes of `"value"`. -/
def kValue : List Nat := [118, 97, 108, 117, 101]
/-- The bytes of `"data"`. -/
def kData : List Nat := [100, 97, 116, 97]

/-- An optional field: present when the value is, absent otherwise. -/
def optField (k : List Nat) : Option (List Nat) → List (List Nat × Json)
  | none => []
  | some s => [(k, Json.jstr s)]

/-- A tag as a JSON record. -/
def tagToJson (t : Tag) : Json := .jobj [(kName, .jstr t.name), (kValue, .jstr t.value)]

/-- Modelled from the spec: the serialization of one `BundleItem` to the
storage record format (`LocalStorageFS::store` uses `serde_json::to_vec`,
external crate code not under `src/`); per §6 of the spec, a structured
record with fields `id, signature, owner, target, anchor,
tags[{name,value}], data`, where `target`/`anchor` serialize as
present-or-absent rather than a sentinel empty string. -/
def toRecord (item : BundleItem) : Json :=
  .jobj ([(kId, .jstr item.id), (kSignature, .jstr item.signature),
    (kOwner, .jstr item.owner)] ++ optField kTarget item.target ++
    optField kAnchor item.anchor ++
    [(kTags, .jarr (item.tags.map tagToJson)), (kData, .jstr item.data)])

/-- First value bound to key `k` in a JSON object's field list. -/
def lookupField (k : List Nat) : List (List Nat × Json) → Option Json
  | [] => none
  | (k2, v) :: rest => if k2 = k then some v else lookupField k rest

/-- A JSON string's content. -/
def asStr : Json → Option (List Nat)
  | .jstr s => some s
  | _ => none

/-- A tag parsed back from its JSON record. -/
def tagFromJson (j : Json) : Option Tag :=
  match j with
  | .jobj fields =>
    match lookupField kName fields, lookupField kValue fields with
    | some n, some v =>
      match asStr n, asStr v with
      | some n2, some v2 => some ⟨n2, v2⟩
      | _, _ => none
    | _, _ => none
  | _ => none

/-- The tag list parsed back from a JSON array. -/
def tagsFromJson : List Json → Option (List Tag)
  | [] => some []
  | j :: rest =>
    match tagFromJson j, tagsFromJson rest with
    | some t, some ts => some (t :: ts)
    | _, _ => none

/-- Modelled from the spec: parsing one storage record back into a
`BundleItem` (the test suite uses `serde_json::from_str`, external crate
code not under `src/`): look up each field by name, an absent
`target`/`anchor` meaning `None`. -/
def fromRecord (j : Json) : Option BundleItem :=
  match j with
  | .jobj fields =>
    match lookupField kId fields, lookupField kSignature fields,
        lookupField kOwner fields, lookupField kTags fields,
        lookupField kData fields with
    | some ji, some js, some jo, some jt, some jd =>
      match asStr ji, asStr js, asStr jo, asStr jd with
      | some id, some signature, some owner, some data =>
        match jt with
        | .jarr tagArr =>
          match tagsFromJson tagArr with
          | none => none
          | some tags =>
            match lookupField kTarget fields, lookupField kAnchor fields with
            | some jtar, some janc =>
              match asStr jtar, asStr janc with
              | some tar, some anc => some ⟨id, signature, owner, some tar, some anc, tags, data⟩
              | _, _ => none
            | some jtar, none =>
              match asStr jtar with
              | some tar => some ⟨id, signature, owner, some tar, none, tags, data⟩
              | none => none
            | none, some janc =>
              match asStr janc with
              | some anc => some ⟨id, signature, owner, none, some anc, tags, data⟩
              | none => none
            | none, none => some ⟨id, signature, owner, none, none, tags, data⟩
        | _ => none
      | _, _, _, _ => none
    | _, _, _, _, _ => none
  | _ => none

/-! Helper notions used by the statements below. -/

/-- The little-endian value of the first four bytes of a buffer (missing
bytes count as 0); what `get_u32_le` reads at offset 0 when the buffer has
at least 4 bytes. -/
def u32le0 (l : List Nat) : Nat :=
  l.getD 0 0 + l.getD 1 0 * 256 + l.getD 2 0 * 65536 + l.getD 3 0 * 16777216

/-- Sum of the declared byte lengths of a list of header entries. -/
def sumSizes (entries : List (Nat × List Nat)) : Nat :=
  (entries.map Prod.fst).sum

/-- A `RunResult` as a per-item stream element: `Ok` and `Err` are
yielded, a panic is `none`. -/
def asExcept {α : Type} : RunResult α → Option (Except ParseError α)
  | .ok a => some (.ok a)
  | .err e => some (.error e)
  | .panic => none

/-- The byte slice the `i`-th of the remaining entries designates: the
bytes after the declared lengths of the entries before it, cut to its own
declared length. -/
def entrySlice (data : List Nat) (entries : List (Nat × List Nat)) (i : Nat) : List Nat :=
  (data.drop (sumSizes (entries.take i))).take (entries.getD i (0, [])).1

/-- The decode outcome of the `i`-th remaining entry from its aligned
slice. -/
def entryOutcome (data : List Nat) (entries : List (Nat × List Nat)) (i : Nat) :
    RunResult BundleItem :=
  BundleItem.parse_item (entrySlice data entries i) (entries.getD i (0, [])).2

/-- Map the error of an `Except` (used to state how the two tag readers
correspond). -/
def mapErrorE {α : Type} (f : ParseError → AErr) : Except ParseError α → Except AErr α
  | .ok a => .ok a
  | .error e => .error (f e)

/-- How the `anyhow` errors of the `src/tags.rs` reader correspond to the
`ParseError`s of the `src/transaction/tags.rs` reader (the remaining
`ParseError` constructors do not occur in the tag reader). -/
def convE : ParseError → AErr
  | .ExpectedLong => .FailedToReadLength
  | .InvalidLengthString => .InvalidStringLength
  | .InvalidString => .InvalidUtf8Sequence
  | _ => .FailedToReadLength

/-- Correspondence of the two target/anchor representations: the batch
decoder's empty string stands for the lazy decoder's `None`, otherwise the
strings are equal. -/
def optRel (b : List Nat) : Option (List Nat) → Prop
  | none => b = []
  | some s => b = s

/-- Correspondence of one header entry between the batch and the lazy
header decoder: equal declared byte length, and the two ids are the
standard padded and the URL-safe unpadded base64 encodings of the same 32
raw bytes. -/
def entryRel (b l : Nat × List Nat) : Prop :=
  b.1 = l.1 ∧ ∃ idb : List Nat, idb.length = 32 ∧
    b.2 = encodeStdPad idb ∧ l.2 = encodeUrlNoPad idb

/-- Correspondence of one decoded item between the batch and the lazy
decoder: signature, owner, tags and data agree; target and anchor agree up
to the empty-string/`None` representation; the ids encode the same 32 raw
bytes in the two base64 variants. -/
def itemCorr (b : BatchItem) (l : BundleItem) : Prop :=
  b.signature = l.signature ∧ b.owner = l.owner ∧ b.tags = l.tags ∧ b.data = l.data ∧
    optRel b.target l.target ∧ optRel b.anchor l.anchor ∧
    ∃ idb : List Nat, idb.length = 32 ∧
      b.id = encodeStdPad idb ∧ l.id = encodeUrlNoPad idb

theorem readLongGo_snd_le (l : List Nat) (number shift : Nat) :
    (readLongGo l number shift).2 ≤ l.length := by
  induction l generalizing number shift with
  | nil => simp [readLongGo]
  | cons b rest ih =>
    simp only [readLongGo]
    split
    · simp
    · simpa [Nat.succ_le_succ_iff] using ih _ _

theorem readLongGo_some_one_le (l : List Nat) (number shift : Nat) (v : Int) (c : Nat)
    (h : readLongGo l number shift = (some v, c)) : 1 ≤ c := by
  induction l generalizing number shift v c with
  | nil => simp [readLongGo] at h
  | cons b rest ih =>
    simp only [readLongGo] at h
    split at h
    · cases h; omega
    · have h2 : (readLongGo rest (number ||| (b &&& 127) <<< shift) (shift + 7)).2 + 1 = c :=
        congrArg Prod.snd h
      omega

theorem read_long_pos_le (buffer : List Nat) (pos : Nat) (h : pos ≤ buffer.length) :
    (read_long buffer pos).2 ≤ buffer.length := by
  have := readLongGo_snd_le (buffer.drop pos) 0 0
  simp only [read_long]
  simp only [List.length_drop] at this
  omega

theorem read_long_some_lt (buffer : List Nat) (pos : Nat) (v : Int) (p : Nat)
    (h : read_long buffer pos = (some v, p)) : pos < p := by
  simp only [read_long] at h
  have h1 : readLongGo (buffer.drop pos) 0 0 = ((readLongGo (buffer.drop pos) 0 0).1, (readLongGo (buffer.drop pos) 0 0).2) := rfl
  rw [h1] at h
  have h2 : (readLongGo (buffer.drop pos) 0 0).1 = some v := (Prod.mk.injEq _ _ _ _ ▸ h).1
  have h3 : p = pos + (readLongGo (buffer.drop pos) 0 0).2 := ((Prod.mk.injEq _ _ _ _ ▸ h).2).symm
  have h4 := readLongGo_some_one_le (buffer.drop pos) 0 0 v _ (by rw [← h2])
  omega

theorem read_long_some_pos_lt_len (buffer : List Nat) (pos : Nat) (v : Int) (p : Nat)
    (h : read_long buffer pos = (some v, p)) : pos < buffer.length := by
  by_contra hc
  have hd : buffer.drop pos = [] := List.drop_eq_nil_of_le (by omega)
  simp only [read_long, hd, readLongGo] at h
  exact Option.noConfusion (Prod.mk.injEq _ _ _ _ ▸ h).1

theorem skipLongGo_le (l : List Nat) : skipLongGo l ≤ l.length := by
  induction l with
  | nil => simp [skipLongGo]
  | cons b rest ih =>
    simp only [skipLongGo]
    split
    · simpa [Nat.succ_le_succ_iff] using ih
    · simp

theorem skip_long_pos_le_self (buffer : List Nat) (pos : Nat) : pos ≤ skip_long buffer pos := by
  simp only [skip_long]
  split <;> omega

theorem skip_long_le (buffer : List Nat) (pos : Nat) (h : pos ≤ buffer.length) :
    skip_long buffer pos ≤ buffer.length := by
  have := skipLongGo_le (buffer.drop pos)
  simp only [List.length_drop] at this
  simp only [skip_long]
  split <;> omega

theorem read_string_pos_le (buffer : List Nat) (pos : Nat) (h : pos ≤ buffer.length) :
    (read_string buffer pos).2 ≤ buffer.length := by
  simp only [read_string]
  split
  · next p heq =>
    have h1 : (read_long buffer pos).2 ≤ buffer.length := read_long_pos_le buffer pos h
    rw [heq] at h1
    exact h1
  · next length p heq =>
    have h1 : (read_long buffer pos).2 ≤ buffer.length := read_long_pos_le buffer pos h
    rw [heq] at h1
    split
    · exact h1
    · next hb =>
      rw [not_or] at hb
      split <;> simp <;> omega

theorem read_string_ok_lt (buffer : List Nat) (pos : Nat) (s : List Nat) (p : Nat)
    (h : read_string buffer pos = (.ok s, p)) : pos < p := by
  simp only [read_string] at h
  split at h
  · exact absurd (congrArg Prod.fst h) (by simp)
  · next length p1 heq =>
    have hlt := read_long_some_lt buffer pos length p1 heq
    split at h
    · exact absurd (congrArg Prod.fst h) (by simp)
    · split at h
      · have : p = p1 + length.toNat := (congrArg Prod.snd h).symm
        omega
      · exact absurd (congrArg Prod.fst h) (by simp)

theorem readRecords_pos_le (buffer : List Nat) (n : Nat) :
    ∀ pos acc tags p, readRecords buffer pos n acc = .ok (tags, p) → pos ≤ p := by
  induction n with
  | zero =>
    intro pos acc tags p h
    simp only [readRecords] at h
    cases h
    exact Nat.le_refl _
  | succ n ih =>
    intro pos acc tags p h
    simp only [readRecords] at h
    split at h
    · exact absurd h (by simp)
    · next name p1 heq1 =>
      split at h
      · exact absurd h (by simp)
      · next value p2 heq2 =>
        have h1 := read_string_ok_lt buffer pos name p1 heq1
        have h2 := read_string_ok_lt buffer p1 value p2 heq2
        have h3 := ih p2 _ tags p h
        omega

theorem readTagsGo_fuel_succ (buffer : List Nat) :
    ∀ fuel pos acc, buffer.length - pos < fuel →
      readTagsGo buffer (fuel + 1) pos acc = readTagsGo buffer fuel pos acc := by
  intro fuel
  induction fuel with
  | zero => intro pos acc h; omega
  | succ fuel ih =>
    intro pos acc h
    show readTagsGo buffer (fuel + 1 + 1) pos acc = readTagsGo buffer (fuel + 1) pos acc
    simp only [readTagsGo]
    split
    · rfl
    · next length p heq =>
      split
      · rfl
      · next acc2 p3 heq2 =>
        have ha := read_long_some_lt buffer pos length p heq
        have hb := read_long_some_pos_lt_len buffer pos length p heq
        have hc : p ≤ (if length < 0 then skip_long buffer p else p) := by
          split
          · exact skip_long_pos_le_self buffer p
          · exact Nat.le_refl _
        have hd := readRecords_pos_le buffer length.natAbs _ acc acc2 p3 heq2
        exact ih p3 acc2 (by omega)

theorem readTagsGo_fuel_eq (buffer : List Nat) :
    ∀ fuel1 fuel2 pos acc, buffer.length - pos < fuel1 → buffer.length - pos < fuel2 →
      readTagsGo buffer fuel1 pos acc = readTagsGo buffer fuel2 pos acc := by
  have haux : ∀ k fuel pos acc, buffer.length - pos < fuel →
      readTagsGo buffer (fuel + k) pos acc = readTagsGo buffer fuel pos acc := by
    intro k
    induction k with
    | zero => intro fuel pos acc _; rfl
    | succ k ih =>
      intro fuel pos acc h
      have h1 : fuel + (k + 1) = (fuel + k) + 1 := by omega
      rw [h1, readTagsGo_fuel_succ buffer (fuel + k) pos acc (by omega), ih fuel pos acc h]
  intro fuel1 fuel2 pos acc h1 h2
  rcases Nat.le_total fuel1 fuel2 with h | h
  · obtain ⟨k, rfl⟩ := Nat.le.dest h
    exact (haux k fuel1 pos acc h1).symm
  · obtain ⟨k, rfl⟩ := Nat.le.dest h
    exact haux k fuel2 pos acc h2

theorem pollNext_yield_state (s : BundleStream) (r : Except ParseError BundleItem)
    (s2 : BundleStream) (h : pollNext s = .yield r s2) :
    s.current_entry < s.entries.length ∧ s2.entries = s.entries ∧
      s2.current_entry = s.current_entry + 1 := by
  simp only [pollNext] at h
  split at h
  · next hlt =>
    refine ⟨hlt, ?_⟩
    split at h
    · exact absurd h (by simp)
    · split at h
      · exact absurd h (by simp)
      · cases h; exact ⟨rfl, rfl⟩
      · cases h; exact ⟨rfl, rfl⟩
  · exact absurd h (by simp)

theorem drainGo_fuel (fuel : Nat) :
    ∀ s, s.entries.length - s.current_entry < fuel →
      drainGo (fuel + 1) s = drainGo fuel s := by
  induction fuel with
  | zero => intro s h; omega
  | succ fuel ih =>
    intro s h
    show drainGo (fuel + 1 + 1) s = drainGo (fuel + 1) s
    cases hp : pollNext s with
    | panic =>
      show (match pollNext s with
        | .panic => RunResult.panic
        | .done => .ok []
        | .yield r s2 => (drainGo (fuel + 1) s2).map (r :: ·)) = _
      rw [hp]
      show RunResult.panic = drainGo (fuel + 1) s
      conv_rhs => rw [drainGo]
      rw [hp]
    | done =>
      show (match pollNext s with
        | .panic => RunResult.panic
        | .done => .ok []
        | .yield r s2 => (drainGo (fuel + 1) s2).map (r :: ·)) = _
      rw [hp]
      show RunResult.ok [] = drainGo (fuel + 1) s
      conv_rhs => rw [drainGo]
      rw [hp]
    | yield r s2 =>
      obtain ⟨h1, h2, h3⟩ := pollNext_yield_state s r s2 hp
      show (match pollNext s with
        | .panic => RunResult.panic
        | .done => .ok []
        | .yield r s2 => (drainGo (fuel + 1) s2).map (r :: ·)) = _
      rw [hp]
      conv_rhs => rw [drainGo]
      rw [hp]
      show RunResult.map (fun x => r :: x) (drainGo (fuel + 1) s2) =
        RunResult.map (fun x => r :: x) (drainGo fuel s2)
      rw [ih s2 (by rw [h2, h3]; omega)]

theorem drainGo_eq_drainEntries (fuel : Nat) :
    ∀ s : BundleStream, s.entries.length - s.current_entry < fuel →
      drainGo fuel s = drainEntries s.bytes (s.entries.drop s.current_entry) := by
  induction fuel with
  | zero => intro s h; omega
  | succ fuel ih =>
    intro s h
    by_cases hlt : s.current_entry < s.entries.length
    · rcases hget : s.entries.get ⟨s.current_entry, hlt⟩ with ⟨sz, idd⟩
      rw [List.get_eq_getElem] at hget
      have hdrop : s.entries.drop s.current_entry =
          (sz, idd) :: s.entries.drop (s.current_entry + 1) := by
        rw [List.drop_eq_getElem_cons hlt, hget]
      rw [hdrop]
      rcases hsp : splitTo sz s.bytes with _ | ⟨item_data, rest⟩
      · have hp : pollNext s = .panic := by
          simp [pollNext, dif_pos hlt, hget, hsp]
        simp only [drainGo, hp, drainEntries, hsp]
      · rcases hpi : BundleItem.parse_item item_data idd with item | e | _
        · have hp : pollNext s = .yield (.ok item) ⟨rest, s.entries, s.current_entry + 1⟩ := by
            simp [pollNext, dif_pos hlt, hget, hsp, hpi]
          simp only [drainGo, hp, drainEntries, hsp, hpi]
          rw [ih ⟨rest, s.entries, s.current_entry + 1⟩ (by simp; omega)]
        · have hp : pollNext s = .yield (.error e) ⟨rest, s.entries, s.current_entry + 1⟩ := by
            simp [pollNext, dif_pos hlt, hget, hsp, hpi]
          simp only [drainGo, hp, drainEntries, hsp, hpi]
          rw [ih ⟨rest, s.entries, s.current_entry + 1⟩ (by simp; omega)]
        · have hp : pollNext s = .panic := by
            simp [pollNext, dif_pos hlt, hget, hsp, hpi]
          simp only [drainGo, hp, drainEntries, hsp, hpi]
    · have hdrop : s.entries.drop s.current_entry = [] :=
        List.drop_eq_nil_of_le (by omega)
      have hp : pollNext s = .done := by
        simp [pollNext, dif_neg hlt]
      simp only [drainGo, hp, hdrop, drainEntries]

theorem drain_eq_drainEntries (s : BundleStream) :
    drain s = drainEntries s.bytes (s.entries.drop s.current_entry) :=
  drainGo_eq_drainEntries (s.entries.length - s.current_entry + 1) s (by omega)

theorem getU32le_short (data : List Nat) (h : data.length < 4) : getU32le data = none := by
  rcases data with _ | ⟨b0, _ | ⟨b1, _ | ⟨b2, _ | ⟨b3, rest⟩⟩⟩⟩ <;>
    simp_all [getU32le] <;> omega

theorem getU32le_long (data : List Nat) (h : 4 ≤ data.length) :
    getU32le data = some (u32le0 data, data.drop 4) := by
  rcases data with _ | ⟨b0, _ | ⟨b1, _ | ⟨b2, _ | ⟨b3, rest⟩⟩⟩⟩ <;>
    simp_all [getU32le, u32le0] <;> omega

theorem splitTo_some (n : Nat) (l : List Nat) (h : n ≤ l.length) :
    splitTo n l = some (l.take n, l.drop n) := by
  simp [splitTo, h]

theorem splitTo_none (n : Nat) (l : List Nat) (h : l.length < n) : splitTo n l = none := by
  simp [splitTo]; omega

theorem readEntries_isSome (n : Nat) :
    ∀ data : List Nat, (readEntries n data).isSome ↔ 64 * n ≤ data.length := by
  induction n with
  | zero => intro data; simp [readEntries]
  | succ n ih =>
    intro data
    by_cases h4 : data.length < 4
    · have hg := getU32le_short data h4
      simp only [readEntries, hg]
      simp
      omega
    · have hg := getU32le_long data (by omega)
      by_cases h32 : data.length < 32
      · have ha : advanceB 28 (data.drop 4) = none := by simp [advanceB]; omega
        simp only [readEntries, hg, ha]
        simp
        omega
      · have ha : advanceB 28 (data.drop 4) = some ((data.drop 4).drop 28) := by
          simp [advanceB]; omega
        by_cases h64 : data.length < 64
        · have hs := splitTo_none 32 ((data.drop 4).drop 28) (by simp; omega)
          simp only [readEntries, hg, ha, hs]
          simp
          omega
        · have hs := splitTo_some 32 ((data.drop 4).drop 28) (by simp; omega)
          have hd : ((data.drop 4).drop 28).drop 32 = data.drop 64 := by
            simp [List.drop_drop]
          have hiff := ih (data.drop 64)
          rcases hre : readEntries n (data.drop 64) with _ | ⟨rest, d4⟩
          · rw [hre] at hiff
            simp only [readEntries, hg, ha, hs, hd, hre]
            simp [List.length_drop] at hiff ⊢
            omega
          · rw [hre] at hiff
            simp only [readEntries, hg, ha, hs, hd, hre]
            simp [List.length_drop] at hiff ⊢
            omega

theorem stream_none_iff (buffer : List Nat) :
    BundleItem.stream buffer = none ↔ buffer.length < 32 + 64 * u32le0 buffer := by
  by_cases h4 : buffer.length < 4
  · have hg := getU32le_short buffer h4
    simp only [BundleItem.stream, hg]
    simp
    omega
  · have hg := getU32le_long buffer (by omega)
    by_cases h32 : buffer.length < 32
    · have ha : advanceB 28 (buffer.drop 4) = none := by simp [advanceB]; omega
      simp only [BundleItem.stream, hg, ha]
      simp
      omega
    · have ha : advanceB 28 (buffer.drop 4) = some ((buffer.drop 4).drop 28) := by
        simp [advanceB]; omega
      have hd : ((buffer.drop 4)).drop 28 = buffer.drop 32 := by simp [List.drop_drop]
      have hiff := readEntries_isSome (u32le0 buffer) (buffer.drop 32)
      rcases hre : readEntries (u32le0 buffer) (buffer.drop 32) with _ | ⟨entries, d3⟩
      · rw [hre] at hiff
        simp only [BundleItem.stream, hg, ha, hd, hre]
        simp [List.length_drop] at hiff ⊢
        omega
      · rw [hre] at hiff
        simp only [BundleItem.stream, hg, ha, hd, hre]
        simp [List.length_drop] at hiff ⊢
        omega

theorem stream_some_current (buffer : List Nat) (s : BundleStream)
    (h : BundleItem.stream buffer = some s) : s.current_entry = 0 := by
  simp only [BundleItem.stream] at h
  rcases h1 : getU32le buffer with _ | ⟨num, d1⟩
  · simp [h1] at h
  · simp only [h1] at h
    rcases h2 : advanceB 28 d1 with _ | d2
    · simp [h2] at h
    · simp only [h2] at h
      rcases h3 : readEntries num d2 with _ | ⟨entries, d3⟩
      · simp [h3] at h
      · simp only [h3] at h
        cases h
        rfl

theorem drainEntries_panic (entries : List (Nat × List Nat)) :
    ∀ data : List Nat, data.length < sumSizes entries →
      drainEntries data entries = .panic := by
  induction entries with
  | nil => intro data h; simp [sumSizes] at h
  | cons e rest ih =>
    intro data h
    rcases e with ⟨size, id⟩
    have hsum : sumSizes ((size, id) :: rest) = size + sumSizes rest := by
      simp [sumSizes]
    by_cases hsz : data.length < size
    · simp only [drainEntries, splitTo_none size data hsz]
    · simp only [drainEntries, splitTo_some size data (by omega)]
      have hrec := ih (data.drop size) (by simp [List.length_drop]; omega)
      rcases hpi : BundleItem.parse_item (data.take size) id with item | e2 | _
      · simp only [hrec]
        rfl
      · simp only [hrec]
        rfl
      · rfl

theorem entryOutcome_cons (data : List Nat) (size : Nat) (id : List Nat)
    (rest : List (Nat × List Nat)) (i : Nat) :
    entryOutcome data ((size, id) :: rest) (i + 1) = entryOutcome (data.drop size) rest i := by
  simp only [entryOutcome, entrySlice, List.getD_cons_succ]
  have h1 : sumSizes (((size, id) :: rest).take (i + 1)) = size + sumSizes (rest.take i) := by
    simp [sumSizes, List.take_succ_cons]
  rw [h1]
  have h2 : (data.drop size).drop (sumSizes (rest.take i)) =
      data.drop (size + sumSizes (rest.take i)) := by
    rw [List.drop_drop, Nat.add_comm]
  rw [← h2]

theorem drainEntries_ok_spec (entries : List (Nat × List Nat)) :
    ∀ (data : List Nat) (results : List (Except ParseError BundleItem)),
      drainEntries data entries = .ok results →
      results.length = entries.length ∧
        ∀ i (h1 : i < entries.length) (h2 : i < results.length),
          asExcept (entryOutcome data entries i) = some (results.get ⟨i, h2⟩) := by
  induction entries with
  | nil =>
    intro data results h
    simp only [drainEntries] at h
    cases h
    exact ⟨rfl, by intro i h1 h2; simp at h1⟩
  | cons e rest ih =>
    intro data results h
    rcases e with ⟨size, id⟩
    by_cases hsz : size ≤ data.length
    · simp only [drainEntries, splitTo_some size data hsz] at h
      rcases hpi : BundleItem.parse_item (data.take size) id with item | e2 | _
      · simp only [hpi] at h
        rcases hde : drainEntries (data.drop size) rest with results2 | e3 | _
        · simp only [hde, RunResult.map] at h
          cases h
          obtain ⟨hlen, hspec⟩ := ih (data.drop size) results2 hde
          refine ⟨by simp [hlen], ?_⟩
          intro i h1 h2
          rcases i with _ | i
          · simp only [entryOutcome, entrySlice, List.getD_cons_zero, List.take_zero,
              sumSizes, List.map_nil, List.sum_nil, List.drop_zero]
            rw [hpi]
            rfl
          · rw [entryOutcome_cons data size id rest i]
            exact hspec i (by simp at h1; omega) (by simp at h2; omega)
        · simp [hde, RunResult.map] at h
        · simp [hde, RunResult.map] at h
      · simp only [hpi] at h
        rcases hde : drainEntries (data.drop size) rest with results2 | e3 | _
        · simp only [hde, RunResult.map] at h
          cases h
          obtain ⟨hlen, hspec⟩ := ih (data.drop size) results2 hde
          refine ⟨by simp [hlen], ?_⟩
          intro i h1 h2
          rcases i with _ | i
          · simp only [entryOutcome, entrySlice, List.getD_cons_zero, List.take_zero,
              sumSizes, List.map_nil, List.sum_nil, List.drop_zero]
            rw [hpi]
            rfl
          · rw [entryOutcome_cons data size id rest i]
            exact hspec i (by simp at h1; omega) (by simp at h2; omega)
        · simp [hde, RunResult.map] at h
        · simp [hde, RunResult.map] at h
      · simp [hpi] at h
    · simp [drainEntries, splitTo_none size data (by omega)] at h

/-- C10: in the tag decoder the cursor never leaves the buffer: from any
in-bounds position, the position after `read_long`, after `skip_long`,
and after `read_string` (successful or failed) is at most the buffer
length. -/
theorem C10_cursor_in_bounds (buffer : List Nat) (pos : Nat) (h : pos ≤ buffer.length) :
    (read_long buffer pos).2 ≤ buffer.length ∧
      skip_long buffer pos ≤ buffer.length ∧
      (read_string buffer pos).2 ≤ buffer.length :=
  ⟨read_long_pos_le buffer pos h, skip_long_le buffer pos h,
    read_string_pos_le buffer pos h⟩

/-- Witness for C10 at `buffer = [4, 5, 6]`, `pos = 2`. -/
theorem C10_witness :
    (2 ≤ ([4, 5, 6] : List Nat).length) ∧
      ((read_long [4, 5, 6] 2).2 ≤ ([4, 5, 6] : List Nat).length ∧
        skip_long [4, 5, 6] 2 ≤ ([4, 5, 6] : List Nat).length ∧
        (read_string [4, 5, 6] 2).2 ≤ ([4, 5, 6] : List Nat).length) :=
  ⟨by decide, C10_cursor_in_bounds [4, 5, 6] 2 (by decide)⟩

/-- C6: in the tag codec, a buffer ending exactly where the length long
is expected makes `read_string` fail with the expected-long error; a
decoded length that is negative or runs past the buffer makes it fail
with the invalid-length error; the two error values are distinct. -/
theorem C6_string_length_errors (buffer : List Nat) (pos : Nat) :
    (pos = buffer.length → read_string buffer pos = (.error .ExpectedLong, pos)) ∧
      (∀ length p, read_long buffer pos = (some length, p) →
        length < 0 ∨ p + length.toNat > buffer.length →
        read_string buffer pos = (.error .InvalidLengthString, p)) ∧
      ParseError.ExpectedLong ≠ ParseError.InvalidLengthString := by
  refine ⟨?_, ?_, by decide⟩
  · intro hend
    have hdrop : buffer.drop pos = [] := by rw [hend, List.drop_length]
    simp [read_string, read_long, hdrop, readLongGo]
  · intro length p hlong hbad
    simp only [read_string, hlong, if_pos hbad]

/-- Witness for C6: the empty buffer ends where a long is expected; in
`[1]` the long decodes to `-1 < 0`. -/
theorem C6_witness :
    (read_string [] 0 = (.error .ExpectedLong, 0)) ∧
      (read_string [1] 0 = (.error .InvalidLengthString, 1)) :=
  ⟨(C6_string_length_errors [] 0).1 rfl,
    (C6_string_length_errors [1] 0).2.1 (-1) 1 (by decide) (by decide)⟩

/-- C7: in the tag phase of item decoding, when the declared tag count
and the declared tag-block byte length are both nonzero and the decoded
tag count differs from the declared one, decoding fails with the
length-mismatch error carrying the declared and the decoded counts; when
either declared value is zero, the tags are empty and no bytes are
consumed. -/
theorem C7_tags_length_mismatch (tags_length num_bytes_for_tags : Nat) (data : List Nat) :
    (∀ tags_bytes rest tags,
      tags_length > 0 → num_bytes_for_tags > 0 →
      splitTo num_bytes_for_tags data = some (tags_bytes, rest) →
      TagsReader.deserialize tags_bytes = .ok tags →
      tags.length ≠ tags_length →
      BundleItem.parseItemTags tags_length num_bytes_for_tags data =
        .err (.InvalidTagsLength tags_length tags.length)) ∧
    (tags_length = 0 ∨ num_bytes_for_tags = 0 →
      BundleItem.parseItemTags tags_length num_bytes_for_tags data = .ok ([], data)) := by
  constructor
  · intro tags_bytes rest tags h1 h2 hsp hde hne
    simp only [BundleItem.parseItemTags, if_pos (And.intro h1 h2), hsp, hde, if_pos hne]
  · intro h
    simp only [BundleItem.parseItemTags]
    rw [if_neg (by omega)]

/-- Witness for C7: a tag block of 9 bytes holding 2 records against a
declared count of 3 yields the error carrying `(3, 2)`; a declared count
of 0 consumes nothing. -/
theorem C7_witness :
    BundleItem.parseItemTags 3 9 [4, 2, 97, 2, 98, 2, 99, 2, 100, 7, 7] =
        .err (.InvalidTagsLength 3 2) ∧
      BundleItem.parseItemTags 0 5 [1, 2] = .ok ([], [1, 2]) := by
  constructor
  · exact (C7_tags_length_mismatch 3 9 [4, 2, 97, 2, 98, 2, 99, 2, 100, 7, 7]).1
      [4, 2, 97, 2, 98, 2, 99, 2, 100] [7, 7] [⟨[97], [98]⟩, ⟨[99], [100]⟩]
      (by decide) (by decide) (by decide) (by decide) (by decide)
  · exact (C7_tags_length_mismatch 0 5 [1, 2]).2 (Or.inl rfl)

/-- C3 (amended): a long decoding to 0 read by the tag loop contributes
no records, and the loop continues after it; in particular, when the 0
long ends the buffer, the loop returns the tags decoded so far.  (As
stated the claim is false: bytes after a 0 long are still examined, see
`C3_counterexample`.) -/
theorem C3_zero_long (buffer : List Nat) (pos p fuel : Nat) (acc : List Tag)
    (hfuel : buffer.length - pos < fuel)
    (hzero : read_long buffer pos = (some 0, p)) :
    readTagsGo buffer fuel pos acc = readTagsGo buffer fuel p acc ∧
      (p = buffer.length → readTagsGo buffer fuel pos acc = .ok acc) := by
  have hlt := read_long_some_lt buffer pos 0 p hzero
  have hlen := read_long_some_pos_lt_len buffer pos 0 p hzero
  rcases fuel with _ | fuel
  · omega
  have hstep : readTagsGo buffer (fuel + 1) pos acc = readTagsGo buffer fuel p acc := by
    show (match read_long buffer pos with
      | (none, _) => Except.ok acc
      | (some length, p) =>
        match readRecords buffer (if length < 0 then skip_long buffer p else p)
            length.natAbs acc with
        | .error e => Except.error e
        | .ok (acc2, p3) => readTagsGo buffer fuel p3 acc2) = _
    rw [hzero]
    show (match readRecords buffer (if (0 : Int) < 0 then skip_long buffer p else p)
        (0 : Int).natAbs acc with
      | .error e => Except.error e
      | .ok (acc2, p3) => readTagsGo buffer fuel p3 acc2) = _
    rfl
  have hs := readTagsGo_fuel_succ buffer fuel p acc (by omega)
  constructor
  · rw [hstep, hs]
  · intro hend
    have hdrop : buffer.drop p = [] := by rw [hend, List.drop_length]
    rw [hstep]
    rcases fuel with _ | fuel
    · rfl
    · show (match read_long buffer p with
        | (none, _) => Except.ok acc
        | (some length, q) =>
          match readRecords buffer (if length < 0 then skip_long buffer q else q)
              length.natAbs acc with
          | .error e => Except.error e
          | .ok (acc2, p3) => readTagsGo buffer fuel p3 acc2) = Except.ok acc
      simp [read_long, hdrop, readLongGo]

/-- Counterexample for C3 as stated: in `[0, 2, 2, 97, 2, 98]` the first
long decodes to 0, yet decoding does not stop there: the bytes after it
are examined and produce the tag `("a", "b")`, so the result is not the
empty list of tags decoded so far. -/
theorem C3_counterexample :
    read_long [0, 2, 2, 97, 2, 98] 0 = (some 0, 1) ∧
      TagsReader.deserialize [0, 2, 2, 97, 2, 98] = .ok [⟨[97], [98]⟩] ∧
      TagsReader.deserialize [0, 2, 2, 97, 2, 98] ≠ .ok [] := by
  exact ⟨by decide, by decide, by decide⟩

/-- Witness for C3 (amended): in `[2, 2, 97, 2, 98, 0]` the final byte is
a 0 long ending the buffer, and the decoder returns the tag decoded
before it. -/
theorem C3_witness :
    read_long [2, 2, 97, 2, 98, 0] 5 = (some 0, 6) ∧
      readTagsGo [2, 2, 97, 2, 98, 0] 7 5 [⟨[97], [98]⟩] = .ok [⟨[97], [98]⟩] :=
  ⟨by decide,
    (C3_zero_long [2, 2, 97, 2, 98, 0] 5 6 7 [⟨[97], [98]⟩] (by decide) (by decide)).2 (by decide)⟩

/-- C4: on a presence byte other than 0/1, `read_optional_string` builds
the error from a *second* `get_u8()` call, so the error carries the byte
after the offending flag, not the flag itself (and when the flag is the
last byte, the second read panics).  At flag byte 2 followed by 7 the
error carries 7, not 2. -/
theorem C4_presence_byte_error :
    BundleItem.read_optional_string [2, 7] = .err (.InvalidPresenceByte 7) ∧
      BundleItem.read_optional_string [2, 7] ≠ .err (.InvalidPresenceByte 2) ∧
      BundleItem.read_optional_string [2] = .panic := by
  exact ⟨by decide, by decide, by decide⟩

/-- C5: the lazy decoder's header phase fails (an out-of-bounds panic
yielding no stream) exactly when the buffer cannot hold the header and
entry table — independent of the declared entry byte lengths, so there is
no upfront sum check; and when the header decodes but the declared byte
lengths sum past the end of the remaining buffer, draining panics at the
first unsatisfiable slice and no list of items is produced. -/
theorem C5_out_of_bounds (buffer : List Nat) :
    (BundleItem.stream buffer = none ↔ buffer.length < 32 + 64 * u32le0 buffer) ∧
      (∀ s, BundleItem.stream buffer = some s →
        s.bytes.length < sumSizes s.entries → drain s = .panic) := by
  refine ⟨stream_none_iff buffer, ?_⟩
  intro s hs hlt
  rw [drain_eq_drainEntries, stream_some_current buffer s hs, List.drop_zero]
  exact drainEntries_panic s.entries s.bytes hlt

/-- Witness for C5: a 4-byte buffer is too short for its own header; a
96-byte buffer whose single entry declares 5 bytes with none remaining
decodes its header but panics on draining. -/
theorem C5_witness :
    BundleItem.stream [1, 0, 0, 0] = none ∧
      drain ⟨[], [(5, List.replicate 43 65)], 0⟩ = .panic :=
  ⟨(C5_out_of_bounds [1, 0, 0, 0]).1.mpr (by decide),
    (C5_out_of_bounds ([1, 0, 0, 0] ++ List.replicate 28 0 ++ [5, 0, 0, 0] ++
        List.replicate 28 0 ++ List.replicate 32 0)).2
      ⟨[], [(5, List.replicate 43 65)], 0⟩ (by decide) (by decide)⟩

/-- C9 (amended): whenever fully draining the lazy stream completes
without an out-of-bounds panic, it yields exactly one Result per
remaining header entry, in header order; the i-th result is the decode
outcome of the slice cut at exactly the declared byte lengths (the buffer
advances by each entry's declared length whether the item decodes or
fails, and a decode error does not terminate the stream); and past the
last entry every further poll returns end-of-sequence.  (As stated the
claim is false: a declared length past the end of the buffer makes
draining panic instead of yielding one Result per entry, see
`C9_counterexample`.) -/
theorem C9_lazy_stream (s : BundleStream) (results : List (Except ParseError BundleItem))
    (h : drain s = .ok results) :
    results.length = (s.entries.drop s.current_entry).length ∧
      (∀ i (h1 : i < (s.entries.drop s.current_entry).length) (h2 : i < results.length),
        asExcept (entryOutcome s.bytes (s.entries.drop s.current_entry) i) =
          some (results.get ⟨i, h2⟩)) ∧
      (∀ t : BundleStream, t.entries.length ≤ t.current_entry → pollNext t = .done) := by
  rw [drain_eq_drainEntries] at h
  obtain ⟨hlen, hspec⟩ := drainEntries_ok_spec (s.entries.drop s.current_entry) s.bytes results h
  refine ⟨hlen, hspec, ?_⟩
  intro t ht
  simp only [pollNext]
  rw [dif_neg (by omega)]

/-- Counterexample for C9 as stated: a buffer whose header declares one
entry of 5 bytes with no bytes remaining decodes to a stream with one
entry, yet draining panics at the unsatisfiable slice instead of yielding
exactly one Result value. -/
theorem C9_counterexample :
    BundleItem.stream ([1, 0, 0, 0] ++ List.replicate 28 0 ++ [5, 0, 0, 0] ++
        List.replicate 28 0 ++ List.replicate 32 0) =
      some ⟨[], [(5, List.replicate 43 65)], 0⟩ ∧
      drain ⟨[], [(5, List.replicate 43 65)], 0⟩ = .panic := by
  exact ⟨by decide, by decide⟩

/-- Witness for C9 (amended): a one-entry stream whose item has an
invalid signature type drains to exactly one yielded error Result. -/
theorem C9_witness :
    drain ⟨[9, 0], [(2, [65])], 0⟩ = .ok [.error (.InvalidSignatureType 9)] ∧
      ([(.error (.InvalidSignatureType 9) : Except ParseError BundleItem)]).length =
        (([(2, [65])] : List (Nat × List Nat)).drop 0).length :=
  ⟨by decide,
    (C9_lazy_stream ⟨[9, 0], [(2, [65])], 0⟩ [.error (.InvalidSignatureType 9)] (by decide)).1⟩

theorem applyOps_append (st : FsState) (ops1 ops2 : List StorageOp) :
    applyOps st (ops1 ++ ops2) = applyOps (applyOps st ops1) ops2 :=
  List.foldl_append applyOp st ops1 ops2

theorem applyOps_stores_dest (vs : List BundleItem) :
    ∀ st : FsState, (applyOps st (vs.map .store)).dest = st.dest := by
  induction vs with
  | nil => intro st; rfl
  | cons v vs ih =>
    intro st
    show (applyOps (applyOp st (.store v)) (vs.map .store)).dest = st.dest
    rw [ih (applyOp st (.store v))]
    rfl

theorem applyOps_stores_rollback (vs : List BundleItem) (l : List BundleItem) :
    applyOps ⟨some l, none⟩ (vs.map .store ++ [.rollback]) = ⟨none, none⟩ := by
  rw [applyOps_append]
  have hd := applyOps_stores_dest vs ⟨some l, none⟩
  rcases hst : applyOps ⟨some l, none⟩ (vs.map .store) with ⟨stg, dst⟩
  rw [hst] at hd
  simp only at hd
  show applyOp ⟨stg, dst⟩ .rollback = ⟨none, none⟩
  simp [applyOp, hd]

theorem index_parser_fail (storeRes : Nat → Option StorageError)
    (commitRes : Option StorageError) (e : ParseError)
    (rest : List (Except ParseError BundleItem)) (vs : List BundleItem) :
    ∀ k, (∀ i, i < vs.length → storeRes (k + i) = none) →
      Indexer.index storeRes commitRes k (vs.map .ok ++ .error e :: rest) =
        (vs.map .store ++ [.rollback], .error (.Parser e)) := by
  induction vs with
  | nil => intro k _; rfl
  | cons v vs ih =>
    intro k hok
    have h0 : storeRes k = none := by have := hok 0 (by simp); simpa using this
    show Indexer.index storeRes commitRes k
        (.ok v :: (vs.map .ok ++ .error e :: rest)) = _
    simp only [Indexer.index, h0]
    rw [ih (k + 1) (fun i hi => by
      have := hok (i + 1) (by simp; omega)
      rw [show k + 1 + i = k + (i + 1) by omega]
      exact this)]
    rfl

theorem index_store_fail (storeRes : Nat → Option StorageError)
    (commitRes : Option StorageError) (v : BundleItem) (e2 : StorageError)
    (rest : List (Except ParseError BundleItem)) (vs : List BundleItem) :
    ∀ k, (∀ i, i < vs.length → storeRes (k + i) = none) →
      storeRes (k + vs.length) = some e2 →
      Indexer.index storeRes commitRes k (vs.map .ok ++ .ok v :: rest) =
        (vs.map .store ++ [.store v, .rollback], .error (.Storage e2)) := by
  induction vs with
  | nil =>
    intro k _ hfail
    show Indexer.index storeRes commitRes k (.ok v :: rest) = _
    simp only [Indexer.index]
    rw [show storeRes k = some e2 from by simpa using hfail]
    rfl
  | cons v0 vs ih =>
    intro k hok hfail
    have h0 : storeRes k = none := by have := hok 0 (by simp); simpa using this
    show Indexer.index storeRes commitRes k
        (.ok v0 :: (vs.map .ok ++ .ok v :: rest)) = _
    simp only [Indexer.index, h0]
    rw [ih (k + 1) (fun i hi => by
      have := hok (i + 1) (by simp; omega)
      rw [show k + 1 + i = k + (i + 1) by omega]
      exact this)
      (by rw [show k + 1 + vs.length = k + (v0 :: vs).length by simp; omega]; exact hfail)]
    rfl

theorem index_all_ok (storeRes : Nat → Option StorageError)
    (commitRes : Option StorageError) (vs : List BundleItem) :
    ∀ k, (∀ i, i < vs.length → storeRes (k + i) = none) →
      Indexer.index storeRes commitRes k (vs.map .ok) =
        (vs.map .store ++ [.commit],
          match commitRes with
          | none => .ok ()
          | some e => .error (.Storage e)) := by
  induction vs with
  | nil => intro k _; rfl
  | cons v vs ih =>
    intro k hok
    have h0 : storeRes k = none := by have := hok 0 (by simp); simpa using this
    show Indexer.index storeRes commitRes k (.ok v :: vs.map .ok) = _
    simp only [Indexer.index, h0]
    rw [ih (k + 1) (fun i hi => by
      have := hok (i + 1) (by simp; omega)
      rw [show k + 1 + i = k + (i + 1) by omega]
      exact this)]
    rfl

/-- C2: with every store before it succeeding, the first failure — a
decode error or a failing store — makes the `index` run roll back the
session (deleting the staging file and leaving no destination file) and
stop, with `commit` never among the calls and the remaining items never
touched; and when every item decodes and stores, the run's calls are
exactly the stores followed by `commit`. -/
theorem C2_rollback_and_commit (storeRes : Nat → Option StorageError)
    (commitRes : Option StorageError) (k : Nat) (vs : List BundleItem)
    (hok : ∀ i, i < vs.length → storeRes (k + i) = none) :
    (∀ e rest,
      Indexer.index storeRes commitRes k (vs.map .ok ++ .error e :: rest) =
        (vs.map .store ++ [.rollback], .error (.Parser e)) ∧
      StorageOp.commit ∉ vs.map StorageOp.store ++ [StorageOp.rollback] ∧
      applyOps ⟨some [], none⟩ (vs.map .store ++ [.rollback]) = ⟨none, none⟩) ∧
    (∀ v rest e2, storeRes (k + vs.length) = some e2 →
      Indexer.index storeRes commitRes k (vs.map .ok ++ .ok v :: rest) =
        (vs.map .store ++ [.store v, .rollback], .error (.Storage e2)) ∧
      StorageOp.commit ∉ vs.map StorageOp.store ++ [.store v, .rollback] ∧
      applyOps ⟨some [], none⟩ (vs.map .store ++ [.store v, .rollback]) = ⟨none, none⟩) ∧
    Indexer.index storeRes commitRes k (vs.map .ok) =
      (vs.map .store ++ [.commit],
        match commitRes with
        | none => .ok ()
        | some e => .error (.Storage e)) := by
  refine ⟨?_, ?_, index_all_ok storeRes commitRes vs k hok⟩
  · intro e rest
    refine ⟨index_parser_fail storeRes commitRes e rest vs k hok, ?_,
      applyOps_stores_rollback vs []⟩
    simp [List.mem_append]
  · intro v rest e2 hfail
    refine ⟨index_store_fail storeRes commitRes v e2 rest vs k hok hfail, ?_, ?_⟩
    · simp [List.mem_append]
    · have h1 : vs.map StorageOp.store ++ [.store v, .rollback] =
          ((vs ++ [v]).map StorageOp.store) ++ [.rollback] := by
        simp [List.map_append]
      rw [h1]
      exact applyOps_stores_rollback (vs ++ [v]) []

/-- Witness for C2: with no items the run commits; a lone decode error
rolls back; a lone item whose store fails rolls back after its store. -/
theorem C2_witness :
    Indexer.index (fun _ => none) none 0 [.error .ExpectedLong] =
        ([.rollback], .error (.Parser .ExpectedLong)) ∧
      Indexer.index (fun _ => some .IOError) none 0
          [.ok ⟨[], [], [], none, none, [], []⟩] =
        ([.store ⟨[], [], [], none, none, [], []⟩, .rollback],
          .error (.Storage .IOError)) ∧
      Indexer.index (fun _ => none) none 0 [] = ([.commit], .ok ()) :=
  ⟨((C2_rollback_and_commit (fun _ => none) none 0 []
      (by intro i hi; exact absurd hi (by simp))).1 .ExpectedLong []).1,
    ((C2_rollback_and_commit (fun _ => some .IOError) none 0 []
      (by intro i hi; exact absurd hi (by simp))).2.1
      ⟨[], [], [], none, none, [], []⟩ [] .IOError rfl).1,
    (C2_rollback_and_commit (fun _ => none) none 0 []
      (by intro i hi; exact absurd hi (by simp))).2.2⟩

theorem tagFromJson_tagToJson (t : Tag) : tagFromJson (tagToJson t) = some t := by
  rcases t with ⟨n, v⟩
  simp [tagToJson, tagFromJson, lookupField, asStr, kName, kValue]

theorem tagsFromJson_map (tags : List Tag) : tagsFromJson (tags.map tagToJson) = some tags := by
  induction tags with
  | nil => rfl
  | cons t ts ih => simp [tagsFromJson, tagFromJson_tagToJson, ih]

/-- C8: serializing a `BundleItem` to the storage record format and
parsing the record back yields the item unchanged, field for field. -/
theorem C8_record_roundtrip (item : BundleItem) : fromRecord (toRecord item) = some item := by
  rcases item with ⟨id, signature, owner, target, anchor, tags, data⟩
  rcases target with _ | tar <;> rcases anchor with _ | anc <;>
    simp [toRecord, fromRecord, optField, lookupField, asStr, tagsFromJson_map,
      kId, kSignature, kOwner, kTarget, kAnchor, kTags, kData]

theorem read_stringB_corr (buffer : List Nat) (pos : Nat) :
    read_stringB buffer pos =
      (mapErrorE convE (read_string buffer pos).1, (read_string buffer pos).2) := by
  simp only [read_stringB, read_string]
  rcases hl : read_long buffer pos with ⟨fst, p⟩
  rcases fst with _ | length
  · rfl
  · by_cases hb : length < 0 ∨ p + length.toNat > buffer.length
    · simp only [if_pos hb]
      rfl
    · simp only [if_neg hb]
      by_cases hu : utf8Valid ((buffer.drop p).take length.toNat)
      · simp only [if_pos hu]
        rfl
      · simp only [if_neg hu]
        rfl

theorem readRecordsB_corr (buffer : List Nat) (n : Nat) :
    ∀ pos acc, readRecordsB buffer pos n acc =
      mapErrorE convE (readRecords buffer pos n acc) := by
  induction n with
  | zero => intro pos acc; rfl
  | succ n ih =>
    intro pos acc
    rcases h1 : read_string buffer pos with ⟨r1, p1⟩
    rcases r1 with e1 | name
    · simp only [readRecordsB, readRecords, read_stringB_corr, h1, mapErrorE]
    · rcases h2 : read_string buffer p1 with ⟨r2, p2⟩
      rcases r2 with e2 | value
      · simp only [readRecordsB, readRecords, read_stringB_corr, h1, h2, mapErrorE]
      · simp only [readRecordsB, readRecords, read_stringB_corr, h1, h2, mapErrorE]
        exact ih p2 (acc ++ [⟨name, value⟩])

theorem readTagsGoB_corr (buffer : List Nat) :
    ∀ fuel pos acc, readTagsGoB buffer fuel pos acc =
      mapErrorE convE (readTagsGo buffer fuel pos acc) := by
  intro fuel
  induction fuel with
  | zero => intro pos acc; rfl
  | succ fuel ih =>
    intro pos acc
    rcases hl : read_long buffer pos with ⟨fst, p⟩
    rcases fst with _ | length
    · simp only [readTagsGoB, readTagsGo, hl, mapErrorE]
    · rcases hr : readRecords buffer (if length < 0 then skip_long buffer p else p)
          length.natAbs acc with e | ⟨acc2, p3⟩
      · simp only [readTagsGoB, readTagsGo, readRecordsB_corr, hl, hr, mapErrorE]
      · simp only [readTagsGoB, readTagsGo, readRecordsB_corr, hl, hr, mapErrorE]
        exact ih p3 acc2

theorem deserializeB_corr (tb : List Nat) :
    deserializeB tb = mapErrorE convE (TagsReader.deserialize tb) :=
  readTagsGoB_corr tb (tb.length + 1) 0 []

theorem tryFromB_corr (v : Nat) :
    tryFromB v =
      mapErrorE (fun _ => .InvalidValueForSignatureType) (SignatureType.tryFrom v) := by
  simp only [tryFromB, SignatureType.tryFrom]
  split_ifs <;> rfl

theorem presence_corr (mkErr : Nat → AErr) (d : List Nat) :
    (∃ bt lt rest, readPresenceB mkErr d = .ok (bt, rest) ∧
      BundleItem.read_optional_string d = .ok (lt, rest) ∧ optRel bt lt) ∨
    ((∀ x, readPresenceB mkErr d ≠ .ok x) ∧
      (∀ y, BundleItem.read_optional_string d ≠ .ok y)) := by
  rcases d with _ | ⟨b, rest⟩
  · right
    constructor <;> intro x h <;>
      simp [readPresenceB, BundleItem.read_optional_string, getU8] at h
  · rcases b with _ | _ | b2
    · exact Or.inl ⟨[], none, rest, rfl, rfl, rfl⟩
    · rcases hsp : splitTo 32 rest with _ | ⟨bytes, rest2⟩
      · right
        constructor <;> intro x h <;>
          simp [readPresenceB, BundleItem.read_optional_string, getU8, hsp] at h
      · refine Or.inl ⟨encodeUrlNoPad bytes, some (encodeUrlNoPad bytes), rest2, ?_, ?_, rfl⟩
        · simp [readPresenceB, getU8, hsp]
        · simp [BundleItem.read_optional_string, getU8, hsp]
    · right
      constructor <;> intro x h
      · simp [readPresenceB, getU8] at h
      · have h2 : (match getU8 rest with
            | none => RunResult.panic
            | some (b, _) => RunResult.err (.InvalidPresenceByte b)) = RunResult.ok x := h
        rcases hg : getU8 rest with _ | ⟨c, r2⟩ <;> rw [hg] at h2 <;> simp at h2

theorem parse_item_corr (d idB idL : List Nat) :
    (∃ b l, parse_bundle_item d idB = .ok b ∧ BundleItem.parse_item d idL = .ok l ∧
      b.id = idB ∧ l.id = idL ∧ b.signature = l.signature ∧ b.owner = l.owner ∧
      b.tags = l.tags ∧ b.data = l.data ∧ optRel b.target l.target ∧
      optRel b.anchor l.anchor) ∨
    ((∀ b, parse_bundle_item d idB ≠ .ok b) ∧ (∀ l, BundleItem.parse_item d idL ≠ .ok l)) := by
  rcases h16 : getU16le d with _ | ⟨raw, d1⟩
  · right
    constructor <;> intro z h <;>
      simp [parse_bundle_item, BundleItem.parse_item, h16] at h
  have htfB := tryFromB_corr raw
  rcases htf : SignatureType.tryFrom raw with e | st
  · rw [htf] at htfB
    simp only [mapErrorE] at htfB
    right
    constructor <;> intro z h
    · simp [parse_bundle_item, h16, htfB] at h
    · simp [BundleItem.parse_item, h16, htf] at h
  rw [htf] at htfB
  simp only [mapErrorE] at htfB
  rcases hs1 : splitTo (SIG_CONFIG st).1 d1 with _ | ⟨sig, d2⟩
  · right
    constructor <;> intro z h
    · simp [parse_bundle_item, h16, htfB, hs1] at h
    · simp [BundleItem.parse_item, h16, htf, hs1] at h
  rcases hs2 : splitTo (SIG_CONFIG st).2 d2 with _ | ⟨own, d3⟩
  · right
    constructor <;> intro z h
    · simp [parse_bundle_item, h16, htfB, hs1, hs2] at h
    · simp [BundleItem.parse_item, h16, htf, hs1, hs2] at h
  rcases presence_corr AErr.ErrorPresenceTargetByte d3 with ⟨bt, lt, d4, hbt, hlt, hrel⟩ |
    ⟨hnb, hnl⟩
  case inr.intro =>
    right
    constructor <;> intro z h
    · rcases hpv : readPresenceB AErr.ErrorPresenceTargetByte d3 with x | e2 | _
      · exact hnb x hpv
      · simp [parse_bundle_item, h16, htfB, hs1, hs2, hpv] at h
      · simp [parse_bundle_item, h16, htfB, hs1, hs2, hpv] at h
    · rcases hpv : BundleItem.read_optional_string d3 with y | e2 | _
      · exact hnl y hpv
      · simp [BundleItem.parse_item, h16, htf, hs1, hs2, hpv] at h
      · simp [BundleItem.parse_item, h16, htf, hs1, hs2, hpv] at h
  rcases presence_corr AErr.ErrorPresenceAnchorByte d4 with ⟨ba, la, d5, hba, hla, hrela⟩ |
    ⟨hnb2, hnl2⟩
  case inr.intro =>
    right
    constructor <;> intro z h
    · rcases hpv : readPresenceB AErr.ErrorPresenceAnchorByte d4 with x | e2 | _
      · exact hnb2 x hpv
      · simp [parse_bundle_item, h16, htfB, hs1, hs2, hbt, hpv] at h
      · simp [parse_bundle_item, h16, htfB, hs1, hs2, hbt, hpv] at h
    · rcases hpv : BundleItem.read_optional_string d4 with y | e2 | _
      · exact hnl2 y hpv
      · simp [BundleItem.parse_item, h16, htf, hs1, hs2, hlt, hpv] at h
      · simp [BundleItem.parse_item, h16, htf, hs1, hs2, hlt, hpv] at h
  rcases h64a : getU64le d5 with _ | ⟨tl, d6⟩
  · right
    constructor <;> intro z h
    · simp [parse_bundle_item, h16, htfB, hs1, hs2, hbt, hba, h64a] at h
    · simp [BundleItem.parse_item, h16, htf, hs1, hs2, hlt, hla, h64a] at h
  rcases h64b : getU64le d6 with _ | ⟨nb, d7⟩
  · right
    constructor <;> intro z h
    · simp [parse_bundle_item, h16, htfB, hs1, hs2, hbt, hba, h64a, h64b] at h
    · simp [BundleItem.parse_item, h16, htf, hs1, hs2, hlt, hla, h64a, h64b] at h
  by_cases hg : tl > 0 ∧ nb > 0
  · rcases hsp : splitTo nb d7 with _ | ⟨tb, d8⟩
    · right
      constructor <;> intro z h
      · simp [parse_bundle_item, h16, htfB, hs1, hs2, hbt, hba, h64a, h64b, hg, hsp] at h
      · simp [BundleItem.parse_item, h16, htf, hs1, hs2, hlt, hla, h64a, h64b,
          BundleItem.parseItemTags, hg, hsp] at h
    · have hdB := deserializeB_corr tb
      rcases hde : TagsReader.deserialize tb with e | tags
      · rw [hde] at hdB
        simp only [mapErrorE] at hdB
        right
        constructor <;> intro z h
        · simp [parse_bundle_item, h16, htfB, hs1, hs2, hbt, hba, h64a, h64b, hg, hsp,
            hdB] at h
        · simp [BundleItem.parse_item, h16, htf, hs1, hs2, hlt, hla, h64a, h64b,
            BundleItem.parseItemTags, hg, hsp, hde] at h
      · rw [hde] at hdB
        simp only [mapErrorE] at hdB
        by_cases hlen : tags.length ≠ tl
        · right
          constructor <;> intro z h
          · simp [parse_bundle_item, h16, htfB, hs1, hs2, hbt, hba, h64a, h64b, hg, hsp,
              hdB, hlen] at h
          · simp [BundleItem.parse_item, h16, htf, hs1, hs2, hlt, hla, h64a, h64b,
              BundleItem.parseItemTags, hg, hsp, hde, hlen] at h
        · have heq : tags.length = tl := by omega
          left
          refine ⟨⟨idB, encodeUrlNoPad sig, encodeUrlNoPad own, bt, ba, tags,
              encodeUrlNoPad d8⟩,
            ⟨idL, encodeUrlNoPad sig, encodeUrlNoPad own, lt, la, tags,
              encodeUrlNoPad d8⟩, ?_, ?_, rfl, rfl, rfl, rfl, rfl, rfl, hrel, hrela⟩
          · simp [parse_bundle_item, h16, htfB, hs1, hs2, hbt, hba, h64a, h64b, hg, hsp,
              hdB, heq]
          · simp [BundleItem.parse_item, h16, htf, hs1, hs2, hlt, hla, h64a, h64b,
              BundleItem.parseItemTags, hg, hsp, hde, heq]
  · left
    refine ⟨⟨idB, encodeUrlNoPad sig, encodeUrlNoPad own, bt, ba, [], encodeUrlNoPad d7⟩,
      ⟨idL, encodeUrlNoPad sig, encodeUrlNoPad own, lt, la, [], encodeUrlNoPad d7⟩,
      ?_, ?_, rfl, rfl, rfl, rfl, rfl, rfl, hrel, hrela⟩
    · simp [parse_bundle_item, h16, htfB, hs1, hs2, hbt, hba, h64a, h64b, hg]
    · simp [BundleItem.parse_item, h16, htf, hs1, hs2, hlt, hla, h64a, h64b,
        BundleItem.parseItemTags, hg]

theorem readEntries_corr (n : Nat) :
    ∀ data : List Nat,
      (readEntriesB n data = none ↔ readEntries n data = none) ∧
      (∀ esB dB esL dL, readEntriesB n data = some (esB, dB) →
        readEntries n data = some (esL, dL) →
        dB = dL ∧ List.Forall₂ entryRel esB esL) := by
  induction n with
  | zero =>
    intro data
    constructor
    · simp [readEntriesB, readEntries]
    · intro esB dB esL dL h1 h2
      injection h1 with h1
      injection h2 with h2
      cases h1
      cases h2
      exact ⟨rfl, List.Forall₂.nil⟩
  | succ n ih =>
    intro data
    rcases h32 : getU32le data with _ | ⟨size, d1⟩
    · constructor
      · simp [readEntriesB, readEntries, h32]
      · intro esB dB esL dL h1 h2
        simp [readEntriesB, h32] at h1
    rcases hadv : advanceB 28 d1 with _ | d2
    · constructor
      · simp [readEntriesB, readEntries, h32, hadv]
      · intro esB dB esL dL h1 h2
        simp [readEntriesB, h32, hadv] at h1
    rcases hsp : splitTo 32 d2 with _ | ⟨idb, d3⟩
    · constructor
      · simp [readEntriesB, readEntries, h32, hadv, hsp]
      · intro esB dB esL dL h1 h2
        simp [readEntriesB, h32, hadv, hsp] at h1
    have hlen32 : idb.length = 32 := by
      rw [splitTo] at hsp
      split at hsp
      · injection hsp with hsp
        injection hsp with hsp1 hsp2
        rw [← hsp1]
        simp
        omega
      · exact absurd hsp (by simp)
    obtain ⟨ihiff, ihsome⟩ := ih d3
    rcases hreB : readEntriesB n d3 with _ | ⟨restB, d4B⟩ <;>
      rcases hreL : readEntries n d3 with _ | ⟨restL, d4L⟩
    · constructor
      · simp [readEntriesB, readEntries, h32, hadv, hsp, hreB, hreL]
      · intro esB dB esL dL h1 h2
        simp [readEntriesB, h32, hadv, hsp, hreB] at h1
    · exact absurd (ihiff.mp hreB) (by simp [hreL])
    · exact absurd (ihiff.mpr hreL) (by simp [hreB])
    · constructor
      · simp [readEntriesB, readEntries, h32, hadv, hsp, hreB, hreL]
      · intro esB dB esL dL h1 h2
        simp only [readEntriesB, h32, hadv, hsp, hreB] at h1
        simp only [readEntries, h32, hadv, hsp, hreL] at h2
        obtain ⟨hd4, hrel⟩ := ihsome restB d4B restL d4L hreB hreL
        injection h1 with h1
        injection h2 with h2
        cases h1
        cases h2
        exact ⟨hd4, List.Forall₂.cons ⟨rfl, idb, hlen32, rfl, rfl⟩ hrel⟩

theorem batch_drain_corr (esB esL : List (Nat × List Nat))
    (hrel : List.Forall₂ entryRel esB esL) :
    ∀ data : List Nat,
      (∀ itemsB, batchItems data esB = .ok itemsB →
        ∃ results, drainEntries data esL = .ok results ∧
          results.length = itemsB.length ∧
          ∀ i (h1 : i < itemsB.length) (h2 : i < results.length),
            ∃ l, results.get ⟨i, h2⟩ = .ok l ∧ itemCorr (itemsB.get ⟨i, h1⟩) l) ∧
      (∀ results, drainEntries data esL = .ok results →
        (∀ r ∈ results, ∃ l, r = .ok l) →
        ∃ itemsB, batchItems data esB = .ok itemsB) := by
  induction hrel with
  | nil =>
    intro data
    constructor
    · intro itemsB h
      have h2 : (BRunResult.ok [] : BRunResult (List BatchItem)) = .ok itemsB := h
      injection h2 with h2
      cases h2
      exact ⟨[], rfl, rfl, by intro i hi1 hi2; simp at hi1⟩
    · intro results h hall
      exact ⟨[], rfl⟩
  | @cons a b l1 l2 hab hrest ih =>
    rcases a with ⟨szB, idsB⟩
    rcases b with ⟨szL, idsL⟩
    obtain ⟨hsz, idb, hlen32, hidB, hidL⟩ := hab
    simp only at hsz hidB hidL
    intro data
    constructor
    · intro itemsB h
      rcases hspt : splitTo szB data with _ | ⟨slice, data2⟩
      · simp [batchItems, hspt] at h
      · simp only [batchItems, hspt] at h
        rcases hpb : parse_bundle_item slice idsB with bitem | e | _
        · simp only [hpb] at h
          rcases hbt : batchItems data2 l1 with items2 | e2 | _ <;>
            simp only [hbt, BRunResult.map] at h
          · injection h with h
            cases h
            rcases parse_item_corr slice idsB idsL with
              ⟨b2, l, hpb2, hpl, hbid, hlid, hsig, hown, htags, hdata, htar, hanc⟩ |
              ⟨hnb, _⟩
            · rw [hpb] at hpb2
              injection hpb2 with hpb2
              cases hpb2
              obtain ⟨results2, hdr, hlen, hcorr⟩ := (ih data2).1 items2 hbt
              have hsplL : splitTo szL data = some (slice, data2) := by
                rw [← hsz]
                exact hspt
              refine ⟨.ok l :: results2, ?_, by simp [hlen], ?_⟩
              · simp only [drainEntries, hsplL, hpl, hdr, RunResult.map]
              · intro i hi1 hi2
                rcases i with _ | i
                · exact ⟨l, rfl, hsig, hown, htags, hdata, htar, hanc, idb, hlen32,
                    by show bitem.id = _; rw [hbid, hidB],
                    by show l.id = _; rw [hlid, hidL]⟩
                · have hres := hcorr i (by simp at hi1; omega) (by simp at hi2; omega)
                  simpa using hres
            · exact absurd hpb (hnb bitem)
          · exact absurd h (by simp)
          · exact absurd h (by simp)
        · simp [hpb] at h
        · simp [hpb] at h
    · intro results h hall
      rcases hsplL : splitTo szL data with _ | ⟨slice, data2⟩
      · simp [drainEntries, hsplL] at h
      · simp only [drainEntries, hsplL] at h
        rcases hpl : BundleItem.parse_item slice idsL with litem | e | _
        · simp only [hpl] at h
          rcases hdr : drainEntries data2 l2 with results2 | e2 | _ <;>
            simp only [hdr, RunResult.map] at h
          · injection h with h
            cases h
            obtain ⟨items2, hbt⟩ := (ih data2).2 results2 hdr
              (fun r hr => hall r (List.mem_cons_of_mem _ hr))
            rcases parse_item_corr slice idsB idsL with
              ⟨b2, l2x, hpb2, hpl2, _⟩ | ⟨_, hnl⟩
            · refine ⟨b2 :: items2, ?_⟩
              have hsplB : splitTo szB data = some (slice, data2) := by
                rw [hsz]
                exact hsplL
              simp only [batchItems, hsplB, hpb2, hbt, BRunResult.map]
            · exact absurd hpl (hnl litem)
          · exact absurd h (by simp)
          · exact absurd h (by simp)
        · simp only [hpl] at h
          rcases hdr : drainEntries data2 l2 with results2 | e2 | _ <;>
            simp only [hdr, RunResult.map] at h
          · injection h with h
            cases h
            obtain ⟨l0, hl0⟩ := hall (.error e) (by simp)
            exact absurd hl0 (by simp)
          · exact absurd h (by simp)
          · exact absurd h (by simp)
        · simp [hpl] at h

/-- C1 (amended): batch decoding (`parse_bundle` of `src/indexer.rs`) and
fully draining the lazy stream (`src/transaction/bundle.rs`) succeed on
the same buffers and produce the same number of items in the same order،
with each pair of corresponding items equal in signature, owner, tags and
data; the target and anchor agree up to representation (empty string in
batch, `None` in lazy); and the two id fields are the standard padded and
the URL-safe unpadded base64 encodings of the same 32 raw id bytes — so
the items are not equal field for field: the id strings differ whenever
the bundle is nonempty (see `C1_counterexample`), and absent
target/anchor are represented differently. -/
theorem C1_batch_lazy (buffer : List Nat) :
    (∀ itemsB, parse_bundle buffer = .ok itemsB →
      ∃ s results, BundleItem.stream buffer = some s ∧ drain s = .ok results ∧
        results.length = itemsB.length ∧
        ∀ i (h1 : i < itemsB.length) (h2 : i < results.length),
          ∃ l, results.get ⟨i, h2⟩ = .ok l ∧ itemCorr (itemsB.get ⟨i, h1⟩) l) ∧
    (∀ s results, BundleItem.stream buffer = some s → drain s = .ok results →
      (∀ r ∈ results, ∃ l, r = .ok l) →
      ∃ itemsB, parse_bundle buffer = .ok itemsB) := by
  rcases h32 : getU32le buffer with _ | ⟨num, d1⟩
  · constructor
    · intro itemsB h
      simp [parse_bundle, h32] at h
    · intro s results hs
      simp [BundleItem.stream, h32] at hs
  rcases hadv : advanceB 28 d1 with _ | d2
  · constructor
    · intro itemsB h
      simp [parse_bundle, h32, hadv] at h
    · intro s results hs
      simp [BundleItem.stream, h32, hadv] at hs
  obtain ⟨hiff, hsome⟩ := readEntries_corr num d2
  rcases hreB : readEntriesB num d2 with _ | ⟨esB, dB⟩ <;>
    rcases hreL : readEntries num d2 with _ | ⟨esL, dL⟩
  · constructor
    · intro itemsB h
      simp [parse_bundle, h32, hadv, hreB] at h
    · intro s results hs
      simp [BundleItem.stream, h32, hadv, hreL] at hs
  · exact absurd (hiff.mp hreB) (by simp [hreL])
  · exact absurd (hiff.mpr hreL) (by simp [hreB])
  · obtain ⟨hdd, hrel⟩ := hsome esB dB esL dL hreB hreL
    cases hdd
    constructor
    · intro itemsB h
      simp only [parse_bundle, h32, hadv, hreB] at h
      obtain ⟨results, hdr, hlen, hcorr⟩ := (batch_drain_corr esB esL hrel dB).1 itemsB h
      refine ⟨⟨dB, esL, 0⟩, results, ?_, ?_, hlen, hcorr⟩
      · simp only [BundleItem.stream, h32, hadv, hreL]
      · rw [drain_eq_drainEntries]
        simpa using hdr
    · intro s results hs hdr hall
      simp only [BundleItem.stream, h32, hadv, hreL] at hs
      injection hs with hs
      cases hs
      rw [drain_eq_drainEntries] at hdr
      simp only [List.drop_zero] at hdr
      obtain ⟨itemsB, hbt⟩ := (batch_drain_corr esB esL hrel dB).2 results hdr hall
      refine ⟨itemsB, ?_⟩
      simp only [parse_bundle, h32, hadv, hreB]
      exact hbt

set_option maxRecDepth 16384 in
/-- Counterexample for C1 as stated: on a valid one-item bundle both
modes succeed, but the id fields differ — the batch id is the padded
standard base64 of the 32 raw id bytes, the lazy id the URL-safe unpadded
encoding — so the two modes do not produce values equal field for field
including the encoding of the id. -/
theorem C1_counterexample :
    (parse_bundle ([1, 0, 0, 0] ++ List.replicate 28 0 ++ [119, 0, 0, 0] ++
        List.replicate 28 0 ++ List.range 32 ++ [2, 0] ++ List.replicate 64 1 ++
        List.replicate 32 2 ++ [0, 0] ++ List.replicate 16 0 ++ [9, 9, 9])).map
        (List.map BatchItem.id) = .ok [encodeStdPad (List.range 32)] ∧
      (BundleItem.stream ([1, 0, 0, 0] ++ List.replicate 28 0 ++ [119, 0, 0, 0] ++
        List.replicate 28 0 ++ List.range 32 ++ [2, 0] ++ List.replicate 64 1 ++
        List.replicate 32 2 ++ [0, 0] ++ List.replicate 16 0 ++ [9, 9, 9])).map
        (fun s => (drain s).map (List.map (Except.map BundleItem.id))) =
        some (.ok [.ok (encodeUrlNoPad (List.range 32))]) ∧
      encodeStdPad (List.range 32) ≠ encodeUrlNoPad (List.range 32) := by
  exact ⟨by decide, by decide, by decide⟩

/-- Witness for C1 (amended), at the empty bundle. -/
theorem C1_witness :
    (∃ s results, BundleItem.stream ([0, 0, 0, 0] ++ List.replicate 28 0) = some s ∧
      drain s = .ok results ∧ results.length = ([] : List BatchItem).length ∧
      ∀ i (h1 : i < ([] : List BatchItem).length) (h2 : i < results.length),
        ∃ l, results.get ⟨i, h2⟩ = .ok l ∧ itemCorr (([] : List BatchItem).get ⟨i, h1⟩) l) ∧
    (∃ itemsB, parse_bundle ([0, 0, 0, 0] ++ List.replicate 28 0) = .ok itemsB) :=
  ⟨(C1_batch_lazy ([0, 0, 0, 0] ++ List.replicate 28 0)).1 [] (by decide),
    (C1_batch_lazy ([0, 0, 0, 0] ++ List.replicate 28 0)).2 ⟨[], [], 0⟩ [] (by decide)
      (by decide) (by intro r hr; simp at hr)⟩

end Ans104
